import Mathlib

/-!
Verification of the beam-planning solver in `solution.py` (repository
andrewrobles/starlink).  The Python program is shallowly embedded: the
module-level registries `User.users` and `Satellite.satellites` become an
explicit `GState` record that is threaded through every operation, the
`Satellite` methods become functions on that record, and the two passes of
`solve` become folds.  The geometric predicates are kept as parameters
`vis` (the 45-degree visibility check, taking the satellite position and
then the user position) and `intf` (the 10-degree interference check,
taking the satellite position and the two user positions); their concrete
real-vector versions are defined and analysed separately below.
-/

namespace Starlink

/-- The four beam colors, `util.Color` (a closed enumeration A/B/C/D). -/
inductive Color : Type
  | A
  | B
  | C
  | D
deriving DecidableEq, Repr

/-- `COLORS = [Color.A, Color.B, Color.C, Color.D]` from solution.py line 7. -/
def COLORS : List Color := [Color.A, Color.B, Color.C, Color.D]

/-- `MAX_USERS_PER_SAT = 32` from solution.py line 5. -/
def MAX_USERS_PER_SAT : Nat := 32

/-- A `User` object of solution.py: position vector, `assigned` flag and
optional beam `color`.  The user's id is the registry key, not a field. -/
structure UserObj (Pos : Type) where
  vector : Pos
  assigned : Bool
  color : Option Color
deriving Repr

/-- A `Satellite` object of solution.py: position vector, the ordered
`assignments` list of user ids, and the `visible_users` list computed once
at construction time. -/
structure SatObj (Pos : Type) where
  vector : Pos
  assignments : List Nat
  visible_users : List Nat
deriving Repr

/-- The module-level mutable state of solution.py: the registries
`User.users` and `Satellite.satellites`.  Python dicts are modelled as an
insertion-ordered key list plus a total lookup function (the function's
value at an unregistered key is never observed by the program). -/
structure GState (Pos : Type) where
  userKeys : List Nat
  user : Nat → UserObj Pos
  satKeys : List Nat
  sat : Nat → SatObj Pos

/-- The state of a fresh Python interpreter: both registries empty. -/
def emptyG (Pos : Type) [Inhabited Pos] : GState Pos :=
  { userKeys := []
    user := fun _ => { vector := default, assigned := false, color := none }
    satKeys := []
    sat := fun _ => { vector := default, assignments := [], visible_users := [] } }

/-- Key insertion for a Python dict: `d[k] = v` keeps the original position
of an existing key and appends a fresh key at the end. -/
def insertKey (ks : List Nat) (k : Nat) : List Nat :=
  if k ∈ ks then ks else ks ++ [k]

/-- Value update for an association-list dict, with Python semantics:
overwrite in place when the key exists, append otherwise. -/
def dictUpd {β : Type} (d : List (Nat × β)) (k : Nat) (v : β) : List (Nat × β) :=
  if d.any (fun p => decide (p.1 = k)) then
    d.map (fun p => if p.1 = k then (k, v) else p)
  else
    d ++ [(k, v)]

/-- Lookup in an association-list dict (first binding wins; the dicts built
by the program have distinct keys). -/
def dlookup {β : Type} (d : List (Nat × β)) (k : Nat) : Option β :=
  (d.find? (fun p => decide (p.1 = k))).map (fun p => p.2)

/-- The solution mapping built by `solve`: user id to (satellite id, color),
as an insertion-ordered dict. -/
abbrev Sol : Type := List (Nat × Nat × Color)

section Solver

variable {Pos : Type} (vis : Pos → Pos → Bool) (intf : Pos → Pos → Pos → Bool)

/-- `Satellite.available_users` (solution.py lines 101-112): the visible
users that are not yet assigned, in visibility-list order. -/
def availableUsers (g : GState Pos) (sid : Nat) : List Nat :=
  (g.sat sid).visible_users.filter (fun uid => !(g.user uid).assigned)

/-- `Satellite.available` (solution.py lines 114-131): the satellite is
under capacity and no user already assigned on this color interferes with
the candidate. -/
def availB (g : GState Pos) (sid uid : Nat) (c : Color) : Bool :=
  decide ((g.sat sid).assignments.length < MAX_USERS_PER_SAT) &&
    (g.sat sid).assignments.all (fun oid =>
      if (g.user oid).color = some c then
        !(intf (g.sat sid).vector (g.user uid).vector (g.user oid).vector)
      else
        true)

/-- `Satellite.assign` (solution.py lines 133-144): unconditionally set the
user's flag and color and append the user id to the assignments list. -/
def assignG (g : GState Pos) (sid uid : Nat) (c : Color) : GState Pos :=
  { g with
    user := Function.update g.user uid
      { vector := (g.user uid).vector, assigned := true, color := some c }
    sat := Function.update g.sat sid
      { vector := (g.sat sid).vector
        assignments := (g.sat sid).assignments ++ [uid]
        visible_users := (g.sat sid).visible_users } }

/-- The list mutation performed by `Satellite._unassign` (solution.py lines
251-260): a `for index, id in enumerate(self.assignments)` loop that pops
matching entries while iterating, so after each pop the element that
slides into the popped slot is skipped. -/
def pyRemove (uid : Nat) : List Nat → List Nat
  | [] => []
  | x :: xs =>
    if x = uid then
      match xs with
      | [] => []
      | y :: ys => y :: pyRemove uid ys
    else
      x :: pyRemove uid xs

/-- `Satellite._unassign` (solution.py lines 251-260): remove the user from
the assignments list.  The user's `assigned` flag and `color` are NOT
cleared by the code. -/
def unassignG (g : GState Pos) (sid uid : Nat) : GState Pos :=
  { g with
    sat := Function.update g.sat sid
      { vector := (g.sat sid).vector
        assignments := pyRemove uid (g.sat sid).assignments
        visible_users := (g.sat sid).visible_users } }

/-- `Satellite.reassign` (solution.py lines 146-155): `_unassign` followed
by `assign`. -/
def reassignG (g : GState Pos) (sid uid : Nat) (c : Color) : GState Pos :=
  assignG (unassignG g sid uid) sid uid c

/-- `Satellite._conflicts` (solution.py lines 232-249): the assigned users
on this color that interfere with the candidate, in assignment order. -/
def conflictsG (g : GState Pos) (sid uid : Nat) (c : Color) : List Nat :=
  (g.sat sid).assignments.filter (fun oid =>
    decide ((g.user oid).color = some c) &&
      intf (g.sat sid).vector (g.user uid).vector (g.user oid).vector)

/-- `Satellite.can_make_room_for` (solution.py lines 157-178): feasible iff
the conflict list is non-empty and every conflicting user has an alternate
color on which it is available. -/
def canMakeRoomG (g : GState Pos) (sid uid : Nat) (c : Color) : Bool :=
  let cs := conflictsG intf g sid uid c
  decide (0 < cs.length) &&
    cs.all (fun cu =>
      COLORS.any (fun c2 => !(decide (c = c2)) && availB intf g sid cu c2))

/-- `Satellite.make_room_for` (solution.py lines 180-199): for each
conflicting user, record the first alternate color on which it is
available; users with no such color are silently skipped. -/
def makeRoomG (g : GState Pos) (sid uid : Nat) (c : Color) : List (Nat × Color) :=
  (conflictsG intf g sid uid c).foldl
    (fun acc cu =>
      match COLORS.find? (fun c2 => !(decide (c = c2)) && availB intf g sid cu c2) with
      | some c2 => dictUpd acc cu c2
      | none => acc)
    []

/-- One user of the first pass (solution.py lines 39-44): try the colors
in order and assign on the first available one; `break` afterwards. -/
def p1step (sid : Nat) (p : GState Pos × Sol) (uid : Nat) : GState Pos × Sol :=
  match COLORS.find? (fun c => availB intf p.1 sid uid c) with
  | some c => (assignG p.1 sid uid c, dictUpd p.2 uid (sid, c))
  | none => p

/-- One satellite of the first pass (solution.py lines 38-44): snapshot the
available users, then process each in order. -/
def p1sat (p : GState Pos × Sol) (sid : Nat) : GState Pos × Sol :=
  (availableUsers p.1 sid).foldl (p1step intf sid) p

/-- One color of the second pass for a fixed user (solution.py lines
49-56): if room can be made, apply the computed reassignments one by one
and then assign the user.  Note that the Python loop has NO `break` here,
so the fold continues with the remaining colors even after an
assignment. -/
def p2color (sid uid : Nat) (q : GState Pos × Sol) (c : Color) : GState Pos × Sol :=
  if canMakeRoomG intf q.1 sid uid c then
    let ras := makeRoomG intf q.1 sid uid c
    let r := ras.foldl
      (fun r pr => (reassignG r.1 sid pr.1 pr.2, dictUpd r.2 pr.1 (sid, pr.2)))
      q
    (assignG r.1 sid uid c, dictUpd r.2 uid (sid, c))
  else
    q

/-- One user of the second pass: fold over all four colors (no break). -/
def p2step (sid : Nat) (p : GState Pos × Sol) (uid : Nat) : GState Pos × Sol :=
  COLORS.foldl (p2color intf sid uid) p

/-- One satellite of the second pass (solution.py lines 47-56). -/
def p2sat (p : GState Pos × Sol) (sid : Nat) : GState Pos × Sol :=
  (availableUsers p.1 sid).foldl (p2step intf sid) p

/-- The user-registration loop of `solve` (solution.py lines 28-30):
`User.users[user_id] = User(user_id, user_vector)` for each input pair, a
fresh object with `assigned = False` and `color = None`. -/
def initUsers (users : List (Nat × Pos)) (g : GState Pos) : GState Pos :=
  users.foldl
    (fun g pr =>
      { g with
        userKeys := insertKey g.userKeys pr.1
        user := Function.update g.user pr.1
          { vector := pr.2, assigned := false, color := none } })
    g

/-- The satellite-registration loop of `solve` (solution.py lines 33-35
plus `Satellite.__init__`, lines 92-99): a fresh object with an empty
assignments list whose `visible_users` is computed from the ENTIRE current
`User.users` registry. -/
def initSats (sats : List (Nat × Pos)) (g : GState Pos) : GState Pos :=
  sats.foldl
    (fun g pr =>
      { g with
        satKeys := insertKey g.satKeys pr.1
        sat := Function.update g.sat pr.1
          { vector := pr.2
            assignments := []
            visible_users :=
              g.userKeys.filter (fun uid => vis pr.2 (g.user uid).vector) } })
    g

/-- `solve` (solution.py lines 13-58) on an explicit registry state:
register users, register satellites, run pass one then pass two over the
registered satellites, and return the solution dict together with the
mutated registries. -/
def solveG (users : List (Nat × Pos)) (sats : List (Nat × Pos)) (g : GState Pos) :
    Sol × GState Pos :=
  let g2 := initSats vis sats (initUsers users g)
  let p1 := g2.satKeys.foldl (p1sat intf) (g2, [])
  let p2 := p1.1.satKeys.foldl (p2sat intf) p1
  (p2.2, p2.1)

/-- `solve` run in a fresh interpreter: both registries start empty. -/
def solveFresh [Inhabited Pos] (users : List (Nat × Pos)) (sats : List (Nat × Pos)) :
    Sol × GState Pos :=
  solveG vis intf users sats (emptyG Pos)

end Solver

/-! ## Real-vector geometry

`solution.py` imports `Vector3` from `util`, which supplies componentwise
subtraction, the dot product, the Euclidean magnitude and
`angle_between`.  The predicates `_is_beam_within_45_degrees` and
`_is_user_within_10_degrees` themselves live in solution.py and are
embedded from that source. -/

/-- A 3D position vector (`util.Vector3`), with real coordinates. -/
structure V3 where
  x : ℝ
  y : ℝ
  z : ℝ

noncomputable instance : Sub V3 :=
  ⟨fun a b => { x := a.x - b.x, y := a.y - b.y, z := a.z - b.z }⟩

/-- The Euclidean dot product of two vectors. -/
noncomputable def V3.dot (a b : V3) : ℝ :=
  a.x * b.x + a.y * b.y + a.z * b.z

/-- The Euclidean magnitude of a vector. -/
noncomputable def V3.mag (a : V3) : ℝ :=
  Real.sqrt (a.dot a)

/-- The angle, in degrees, between two ray direction vectors.  Helper for
`V3.angle_between` below. -/
noncomputable def angleDegVec (v w : V3) : ℝ :=
  (180 / Real.pi) * Real.arccos (v.dot w / (v.mag * w.mag))

/-- Modelled from the spec: `util.Vector3.angle_between` is absent from
src/; §6 of the spec describes it as an "angle between two rays from a
vantage point" operation returning degrees in [0,180], and §4.1/§7 require
the geometric predicates to degrade gracefully (return false) on
zero-magnitude rays instead of raising.  It is therefore modelled as the
degree-valued arccosine of the normalized dot product of the two rays; on
a zero-magnitude ray the normalization quotient is 0 and the result is
90°, which makes both predicates below return false as the spec states. -/
noncomputable def V3.angle_between (v a b : V3) : ℝ :=
  angleDegVec (a - v) (b - v)

/-- `Vector3(0, 0, 0)`, the body center used as the zenith reference. -/
def V3.origin : V3 :=
  { x := 0, y := 0, z := 0 }

/-- `MIN_BEAM_INTERFERENCE = 10` from solution.py line 6. -/
def MIN_BEAM_INTERFERENCE : ℝ := 10

/-- `Satellite._is_beam_within_45_degrees` (solution.py lines 201-211):
`180 - user.angle_between(Vector3(0, 0, 0), self.vector) <= 45`, with the
satellite position first and the user position second. -/
def is_beam_within_45_degrees (satPos userPos : V3) : Prop :=
  180 - userPos.angle_between V3.origin satPos ≤ 45

/-- `Satellite._is_user_within_10_degrees` (solution.py lines 213-230):
false when either ray from the satellite has zero magnitude, otherwise
true iff the angle at the satellite is strictly below
`MIN_BEAM_INTERFERENCE`. -/
def is_user_within_10_degrees (satPos u1 u2 : V3) : Prop :=
  ¬((u1 - satPos).mag = 0 ∨ (u2 - satPos).mag = 0) ∧
    satPos.angle_between u1 u2 < MIN_BEAM_INTERFERENCE

/-- The spec's zenith formulation of visibility (§4.1): the angle between
the user's local zenith direction (the ray from the origin through the
user's position, i.e. the user's position vector itself) and the ray from
the user to the satellite. -/
noncomputable def zenith_angle_deg (userPos satPos : V3) : ℝ :=
  angleDegVec userPos (satPos - userPos)

/-- The spec's formulation (§4.4 step 2) of Pass 2 feasibility: the
conflict set is non-empty and every conflicting user has at least one
alternate color on which it is available. -/
def feasibleSpec {Pos : Type} (intf : Pos → Pos → Pos → Bool) (g : GState Pos)
    (sid uid : Nat) (c : Color) : Prop :=
  conflictsG intf g sid uid c ≠ [] ∧
    ∀ cu ∈ conflictsG intf g sid uid c,
      ∃ c2 ∈ COLORS, c2 ≠ c ∧ availB intf g sid cu c2 = true

/-! ## Concrete instantiations used for counterexamples and witnesses

`Int` stands in for the position type: a position is read as the bearing
of the user, in fifths of a degree, away from a fixed reference ray of the
satellite, all users lying in one plane through the satellite.  Two users
then interfere exactly when their bearings differ by less than 10 degrees
(50 fifths), and a satellite position is irrelevant to interference. -/

/-- Toy visibility: every user visible to every satellite. -/
def alwaysVisible : Int → Int → Bool := fun _ _ => true

/-- Toy interference: never interfering. -/
def neverIntf : Int → Int → Int → Bool := fun _ _ _ => false

/-- Toy interference by bearing difference: two users interfere iff their
bearings (in fifths of a degree) differ by less than 10 degrees. -/
def bearingIntf : Int → Int → Int → Bool := fun _ a b => decide ((a - b).natAbs < 50)

/-- The Pass-2 double-assignment input: users 1..6 at bearings -9.4°,
10.6°, 9.4°, -10.6°, 1.4°, -1.4° and user 7 at bearing 0°, all visible to
the single satellite 0.  Pass 1 places 1→A, 2→A, 3→B, 4→B, 5→C, 6→D and
leaves 7 unassigned (each color holds an interferer of 7).  In Pass 2,
channel A is feasible for user 7 (relocate 1 to C), and afterwards channel
B is feasible as well (relocate 3 to D), so the missing `break` assigns
user 7 twice. -/
def pass2BugUsers : List (Nat × Int) :=
  [(1, -47), (2, 53), (3, 47), (4, -53), (5, 7), (6, -7), (7, 0)]

/-- The single satellite of the Pass-2 double-assignment input. -/
def pass2BugSats : List (Nat × Int) :=
  [(0, 0)]

/-- A state in which `Satellite.assign` has been called twice for the same
user: the second call violates the "user currently unassigned"
precondition claimed by the spec. -/
def assignTwiceState : GState Int :=
  assignG (assignG (initUsers [(7, 0)] (emptyG Int)) 0 7 Color.A) 0 7 Color.B

/-- A state in which satellite 0 already serves `MAX_USERS_PER_SAT`
users: a further `assign` violates the "under capacity" precondition
claimed by the spec. -/
def fullSatState : GState Int :=
  (List.range 32).foldl (fun g i => assignG g 0 i Color.A)
    (initUsers ((List.range 33).map (fun i => (i, (0 : Int)))) (emptyG Int))

section Invariants

variable {Pos : Type} (vis : Pos → Pos → Bool) (intf : Pos → Pos → Pos → Bool)

/-- The no-interference relation on two entries of a satellite's
assignments list: when the two entries are distinct users sharing a color,
the interference check fails in at least one of the two orientations (the
code always evaluates it with the newly placed candidate first, but a user
that occurs twice in the list — reachable through the missing Pass-2 break
— pins down only one orientation per pair, so the invariant keeps the
disjunction; the real geometric predicate is symmetric anyway). -/
def PairOk (g : GState Pos) (sid : Nat) (v u : Nat) : Prop :=
  v ≠ u → (g.user v).color = (g.user u).color →
    (intf (g.sat sid).vector (g.user u).vector (g.user v).vector = false ∨
      intf (g.sat sid).vector (g.user v).vector (g.user u).vector = false)

/-- The candidate `cu` can join color `nc` on satellite `sid`: it fails the
interference check, in at least one orientation, against every other user
currently on that color. -/
def SafeFor (g : GState Pos) (sid cu : Nat) (nc : Color) : Prop :=
  ∀ v ∈ (g.sat sid).assignments, v ≠ cu → (g.user v).color = some nc →
    (intf (g.sat sid).vector (g.user cu).vector (g.user v).vector = false ∨
      intf (g.sat sid).vector (g.user v).vector (g.user cu).vector = false)

/-- The registry-state invariant maintained by registration and by both
passes of `solve` when run from a fresh interpreter. -/
structure Inv (g : GState Pos) : Prop where
  ukeys_nodup : g.userKeys.Nodup
  vnodup : ∀ sid, (g.sat sid).visible_users.Nodup
  vkeys : ∀ sid, ∀ uid ∈ (g.sat sid).visible_users, uid ∈ g.userKeys
  vvis : ∀ sid, ∀ uid ∈ (g.sat sid).visible_users,
    vis (g.sat sid).vector (g.user uid).vector = true
  cap : ∀ sid, (g.sat sid).assignments.length ≤ MAX_USERS_PER_SAT
  masg : ∀ sid, ∀ uid ∈ (g.sat sid).assignments, (g.user uid).assigned = true
  mvis : ∀ sid, ∀ uid ∈ (g.sat sid).assignments, uid ∈ (g.sat sid).visible_users
  cross : ∀ s1 s2, s1 ≠ s2 → ∀ uid, uid ∈ (g.sat s1).assignments →
    uid ∉ (g.sat s2).assignments
  pw : ∀ sid, (g.sat sid).assignments.Pairwise (PairOk intf g sid)

/-- Consistency of the solution dict with the registry state: keys are
unique, and every entry's user is on the named satellite's list with the
recorded color. -/
structure SolOk (p : GState Pos × Sol) : Prop where
  keys_nodup : (p.2.map (fun e => e.1)).Nodup
  mem : ∀ e ∈ p.2, e.1 ∈ (p.1.sat e.2.1).assignments
  colorOk : ∀ e ∈ p.2, (p.1.user e.1).color = some e.2.2

/-- The fields of the state that the two passes never change: the key
lists, every position vector, and every visibility list. -/
structure Frame (g h : GState Pos) : Prop where
  ukeys : h.userKeys = g.userKeys
  skeys : h.satKeys = g.satKeys
  uvec : ∀ w, (h.user w).vector = (g.user w).vector
  svec : ∀ sid, (h.sat sid).vector = (g.sat sid).vector
  svis : ∀ sid, (h.sat sid).visible_users = (g.sat sid).visible_users

/-- One application of a computed reassignment in Pass 2 (solution.py
lines 52-54): relocate the conflicting user and overwrite its solution
entry.  This names the step function of the fold inside `p2color`. -/
def relocStep (sid : Nat) (r : GState Pos × Sol) (pr : Nat × Color) : GState Pos × Sol :=
  (reassignG r.1 sid pr.1 pr.2, dictUpd r.2 pr.1 (sid, pr.2))

/-- The registry state after `solve`'s two registration loops, starting
from a fresh interpreter. -/
def initState [Inhabited Pos] (users sats : List (Nat × Pos)) : GState Pos :=
  initSats vis sats (initUsers users (emptyG Pos))

/-- The state and solution after all of Pass 1, on a fresh run. -/
def pass1Full [Inhabited Pos] (users sats : List (Nat × Pos)) : GState Pos × Sol :=
  (initState vis users sats).satKeys.foldl (p1sat intf) (initState vis users sats, [])

/-- The state and solution after all of Pass 2 (hence after `solve`), on a
fresh run. -/
def pass2Full [Inhabited Pos] (users sats : List (Nat × Pos)) : GState Pos × Sol :=
  (pass1Full vis intf users sats).1.satKeys.foldl (p2sat intf)
    (pass1Full vis intf users sats)

/-- An intermediate point of Pass 1 on a fresh run: the first `k`
satellites processed completely, then the first `m` available users of the
next satellite. -/
def pass1Upto [Inhabited Pos] (users sats : List (Nat × Pos)) (k m : Nat) :
    GState Pos × Sol :=
  let g2 := initState vis users sats
  let p := (g2.satKeys.take k).foldl (p1sat intf) (g2, [])
  match g2.satKeys.drop k with
  | [] => p
  | sid :: _ => ((availableUsers p.1 sid).take m).foldl (p1step intf sid) p

/-- An intermediate point of Pass 2 on a fresh run. -/
def pass2Upto [Inhabited Pos] (users sats : List (Nat × Pos)) (k m : Nat) :
    GState Pos × Sol :=
  let p1 := pass1Full vis intf users sats
  let p := (p1.1.satKeys.take k).foldl (p2sat intf) p1
  match p1.1.satKeys.drop k with
  | [] => p
  | sid :: _ => ((availableUsers p.1 sid).take m).foldl (p2step intf sid) p

/-- What holds after the Pass-2 relocation loop runs over `ras` from state
`(g, sol)` and reaches `r`: the invariants are preserved, the contested
satellite's list has not grown, no other satellite changed, every
relocated user carries its recorded new color, everyone else's color is
untouched, and unassigned users stay unassigned. -/
structure RelocOut (g : GState Pos) (sol : Sol) (sid : Nat)
    (ras : List (Nat × Color)) (r : GState Pos × Sol) : Prop where
  inv : Inv vis intf r.1
  solok : SolOk r
  len : (r.1.sat sid).assignments.length ≤ (g.sat sid).assignments.length
  others : ∀ s2, s2 ≠ sid → r.1.sat s2 = g.sat s2
  frame : Frame g r.1
  memback : ∀ v ∈ (r.1.sat sid).assignments, v ∈ (g.sat sid).assignments
  reloc_color : ∀ v ∈ ras.map (fun e => e.1),
    ∃ pr ∈ ras, v = pr.1 ∧ (r.1.user v).color = some pr.2
  other_color : ∀ w, w ∉ ras.map (fun e => e.1) →
    (r.1.user w).color = (g.user w).color
  flags : ∀ w, (g.user w).assigned = false → (r.1.user w).assigned = false

/-- The parts of the registry state that the two passes leave pinned to
the post-registration state `g2`: both key lists, every user object
outside the registered user keys, every satellite object outside the
registered satellite keys, every visibility list, and the containment of
every assignments list in the registered user keys. -/
structure Keeps (g2 g : GState Pos) : Prop where
  uk : g.userKeys = g2.userKeys
  sk : g.satKeys = g2.satKeys
  uoff : ∀ u, u ∉ g2.userKeys → g.user u = g2.user u
  soff : ∀ s, s ∉ g2.satKeys → g.sat s = g2.sat s
  svis : ∀ s, (g.sat s).visible_users = (g2.sat s).visible_users
  amem : ∀ s, ∀ u ∈ (g.sat s).assignments, u ∈ g2.userKeys

end Invariants

/-! ## Geometry lemmas -/

@[simp]
theorem V3.sub_x (a b : V3) : (a - b).x = a.x - b.x := rfl

@[simp]
theorem V3.sub_y (a b : V3) : (a - b).y = a.y - b.y := rfl

@[simp]
theorem V3.sub_z (a b : V3) : (a - b).z = a.z - b.z := rfl

@[simp]
theorem V3.origin_x : V3.origin.x = 0 := rfl

@[simp]
theorem V3.origin_y : V3.origin.y = 0 := rfl

@[simp]
theorem V3.origin_z : V3.origin.z = 0 := rfl

theorem V3.dot_comm (a b : V3) : a.dot b = b.dot a := by
  unfold V3.dot
  ring

theorem angle_between_comm (v a b : V3) :
    v.angle_between a b = v.angle_between b a := by
  unfold V3.angle_between angleDegVec
  rw [V3.dot_comm (a - v) (b - v), mul_comm ((a - v).mag) ((b - v).mag)]

/-- The quantity `180 - user.angle_between(origin, sat)` computed by
`_is_beam_within_45_degrees` equals the zenith-to-satellite angle of the
spec's formulation (unconditionally, thanks to the junk-value conventions
for degenerate rays). -/
theorem beam_sub_eq_zenith (u S : V3) :
    180 - u.angle_between V3.origin S = zenith_angle_deg u S := by
  unfold V3.angle_between zenith_angle_deg angleDegVec
  have hdot : (V3.origin - u).dot (S - u) = -(u.dot (S - u)) := by
    simp only [V3.dot, V3.sub_x, V3.sub_y, V3.sub_z, V3.origin_x, V3.origin_y, V3.origin_z]
    ring
  have hmag : (V3.origin - u).mag = u.mag := by
    unfold V3.mag
    congr 1
    simp only [V3.dot, V3.sub_x, V3.sub_y, V3.sub_z, V3.origin_x, V3.origin_y, V3.origin_z]
    ring
  rw [hdot, hmag, neg_div, Real.arccos_neg, mul_sub,
    div_mul_cancel₀ (180 : ℝ) Real.pi_ne_zero]
  ring

/-- C6: the interference predicate returns true iff the angle, measured at
the satellite's position, between the ray to userA's position and the ray
to userB's position is strictly less than 10 degrees; if either ray has
zero magnitude it returns false; and it is symmetric in the two user
positions. -/
theorem C6_interferes_lt10_degenerate_symmetric :
    ∀ satPos u1 u2 : V3,
      (((u1 - satPos).mag ≠ 0 ∧ (u2 - satPos).mag ≠ 0) →
        (is_user_within_10_degrees satPos u1 u2 ↔
          angleDegVec (u1 - satPos) (u2 - satPos) < 10)) ∧
      (((u1 - satPos).mag = 0 ∨ (u2 - satPos).mag = 0) →
        ¬ is_user_within_10_degrees satPos u1 u2) ∧
      (is_user_within_10_degrees satPos u1 u2 ↔
        is_user_within_10_degrees satPos u2 u1) := by
  intro satPos u1 u2
  refine ⟨fun h => ?_, fun h hp => hp.1 h, ?_⟩
  · unfold is_user_within_10_degrees V3.angle_between MIN_BEAM_INTERFERENCE
    constructor
    · exact fun hp => hp.2
    · exact fun ha => ⟨fun hd => hd.elim h.1 h.2, ha⟩
  · unfold is_user_within_10_degrees
    rw [angle_between_comm, or_comm]

/-- Witness for C6 at satellite (0,0,0) and both users at (1,0,0): the two
rays have magnitude 1, and the predicate agrees with the 10-degree angle
comparison there. -/
theorem C6_witness :
    ((((⟨1, 0, 0⟩ : V3) - V3.origin).mag ≠ 0 ∧ (((⟨1, 0, 0⟩ : V3) - V3.origin)).mag ≠ 0) ∧
      (is_user_within_10_degrees V3.origin ⟨1, 0, 0⟩ ⟨1, 0, 0⟩ ↔
        angleDegVec ((⟨1, 0, 0⟩ : V3) - V3.origin) ((⟨1, 0, 0⟩ : V3) - V3.origin) < 10)) := by
  have hm : (((⟨1, 0, 0⟩ : V3) - V3.origin)).mag = 1 := by
    unfold V3.mag
    have : (((⟨1, 0, 0⟩ : V3) - V3.origin)).dot ((⟨1, 0, 0⟩ : V3) - V3.origin) = 1 := by
      simp [V3.dot]
    rw [this, Real.sqrt_one]
  have h : (((⟨1, 0, 0⟩ : V3) - V3.origin)).mag ≠ 0 := by
    rw [hm]
    exact one_ne_zero
  exact ⟨⟨h, h⟩, (C6_interferes_lt10_degenerate_symmetric V3.origin ⟨1, 0, 0⟩ ⟨1, 0, 0⟩).1 ⟨h, h⟩⟩

/-- C7: the visibility predicate returns true iff the angle between the
user's zenith direction and the ray from the user to the satellite is at
most 45 degrees inclusive (this direction of the claim holds with no
degeneracy proviso in the model), and in the degenerate case where the
user's position or the user-to-satellite ray has zero magnitude it
returns false rather than raising. -/
theorem C7_visible_iff_zenith_le_45 :
    ∀ u S : V3,
      (is_beam_within_45_degrees S u ↔ zenith_angle_deg u S ≤ 45) ∧
      ((u.mag = 0 ∨ (S - u).mag = 0) → ¬ is_beam_within_45_degrees S u) := by
  intro u S
  have hiff : is_beam_within_45_degrees S u ↔ zenith_angle_deg u S ≤ 45 := by
    unfold is_beam_within_45_degrees
    rw [beam_sub_eq_zenith]
  refine ⟨hiff, fun hd => ?_⟩
  rw [hiff]
  have hz : zenith_angle_deg u S = 90 := by
    unfold zenith_angle_deg angleDegVec
    have hden : u.mag * (S - u).mag = 0 := by
      rcases hd with h | h
      · rw [h, zero_mul]
      · rw [h, mul_zero]
    rw [hden, div_zero, Real.arccos_zero]
    field_simp
    ring
  rw [hz]
  norm_num

/-- Witness for C7 at user (1,0,0) and satellite (2,0,0): the user's
position and the user-to-satellite ray are nonzero, the zenith angle is 0
and the predicate holds. -/
theorem C7_witness :
    (is_beam_within_45_degrees ⟨2, 0, 0⟩ ⟨1, 0, 0⟩ ↔
      zenith_angle_deg ⟨1, 0, 0⟩ ⟨2, 0, 0⟩ ≤ 45) ∧
    is_beam_within_45_degrees ⟨2, 0, 0⟩ ⟨1, 0, 0⟩ := by
  have hiff := (C7_visible_iff_zenith_le_45 ⟨1, 0, 0⟩ ⟨2, 0, 0⟩).1
  have hz : zenith_angle_deg ⟨1, 0, 0⟩ ⟨2, 0, 0⟩ = 0 := by
    unfold zenith_angle_deg angleDegVec
    have hdot : (⟨1, 0, 0⟩ : V3).dot ((⟨2, 0, 0⟩ : V3) - ⟨1, 0, 0⟩) = 1 := by
      simp [V3.dot]
      norm_num
    have hm1 : (⟨1, 0, 0⟩ : V3).mag = 1 := by
      unfold V3.mag
      have : (⟨1, 0, 0⟩ : V3).dot ⟨1, 0, 0⟩ = 1 := by
        simp [V3.dot]
      rw [this, Real.sqrt_one]
    have hm2 : ((⟨2, 0, 0⟩ : V3) - ⟨1, 0, 0⟩).mag = 1 := by
      unfold V3.mag
      have : ((⟨2, 0, 0⟩ : V3) - ⟨1, 0, 0⟩).dot ((⟨2, 0, 0⟩ : V3) - ⟨1, 0, 0⟩) = 1 := by
        simp [V3.dot]
        norm_num
      rw [this, Real.sqrt_one]
    rw [hdot, hm1, hm2]
    norm_num [Real.arccos_one]
  refine ⟨hiff, hiff.mpr ?_⟩
  rw [hz]
  norm_num

/-- C8: `can_make_room_for` returns true iff the conflict set is non-empty
and every conflicting user has an alternate color (different from the
requested one, on the same satellite) on which it is available; in
particular it returns false whenever there are no conflicts (e.g. when the
satellite is merely full), and then the Pass-2 color step leaves the state
and the solution unchanged. -/
theorem C8_can_make_room_iff_feasible :
    ∀ {Pos : Type} (intf : Pos → Pos → Pos → Bool) (g : GState Pos)
      (sid uid : Nat) (c : Color),
      (canMakeRoomG intf g sid uid c = true ↔ feasibleSpec intf g sid uid c) ∧
      (conflictsG intf g sid uid c = [] → canMakeRoomG intf g sid uid c = false) ∧
      (canMakeRoomG intf g sid uid c = false →
        ∀ sol : Sol, p2color intf sid uid (g, sol) c = (g, sol)) := by
  intro Pos intf g sid uid c
  refine ⟨?_, fun h => ?_, fun h sol => ?_⟩
  · unfold canMakeRoomG feasibleSpec
    simp only [Bool.and_eq_true, decide_eq_true_eq, List.all_eq_true, List.any_eq_true,
      Bool.not_eq_true', decide_eq_false_iff_not, List.length_pos]
    constructor
    · rintro ⟨h1, h2⟩
      exact ⟨h1, fun cu hcu => by
        obtain ⟨c2, hc2, hne, hav⟩ := h2 cu hcu
        exact ⟨c2, hc2, Ne.symm hne, hav⟩⟩
    · rintro ⟨h1, h2⟩
      exact ⟨h1, fun cu hcu => by
        obtain ⟨c2, hc2, hne, hav⟩ := h2 cu hcu
        exact ⟨c2, hc2, Ne.symm hne, hav⟩⟩
  · unfold canMakeRoomG
    rw [h]
    simp
  · unfold p2color
    rw [h]
    simp

/-- Witness for C8 on the empty registry state: there are no conflicts, so
`can_make_room_for` is false and the Pass-2 color step is a no-op. -/
theorem C8_witness :
    conflictsG neverIntf (emptyG Int) 0 1 Color.A = [] ∧
    canMakeRoomG neverIntf (emptyG Int) 0 1 Color.A = false ∧
    p2color neverIntf 0 1 (emptyG Int, []) Color.A = (emptyG Int, []) := by
  have h1 : conflictsG neverIntf (emptyG Int) 0 1 Color.A = [] := by decide
  have h2 := (C8_can_make_room_iff_feasible neverIntf (emptyG Int) 0 1 Color.A).2.1 h1
  exact ⟨h1, h2, (C8_can_make_room_iff_feasible neverIntf (emptyG Int) 0 1 Color.A).2.2 h2 []⟩

/-- C1 (code bug evidence): on the bearing input `pass2BugUsers`, Pass 2
finds channel A feasible for the still-unassigned user 7 and assigns it,
but — lacking the `break` that Pass 1 has — keeps trying channels and
assigns user 7 a second time on channel B.  User 7 ends up twice in the
satellite's assignments list, contradicting the claim that no user is
assigned more than once during Pass 2. -/
theorem C1_pass2_user_assigned_twice :
    (((solveFresh alwaysVisible bearingIntf pass2BugUsers pass2BugSats).2.sat 0).assignments
      = [2, 4, 5, 6, 1, 7, 3, 7]) ∧
    (((solveFresh alwaysVisible bearingIntf pass2BugUsers pass2BugSats).2.sat 0).assignments.count 7
      = 2) ∧
    dlookup (solveFresh alwaysVisible bearingIntf pass2BugUsers pass2BugSats).1 7
      = some (0, Color.B) := by
  decide

/-- Counterexample to C2: `Satellite.assign` performs no precondition
check and there is no `PrecandidateViolation` anywhere in the code.
Called on a user that is already assigned it happily appends the user a
second time, and called on a satellite that is already at capacity
(32 users) it grows the list to 33 — in both cases it mutates the state
instead of failing. -/
theorem C2_counterexample_assign_never_fails :
    (assignTwiceState.sat 0).assignments = [7, 7] ∧
    (assignTwiceState.user 7).assigned = true ∧
    (assignTwiceState.user 7).color = some Color.B ∧
    (fullSatState.sat 0).assignments.length = MAX_USERS_PER_SAT ∧
    ((assignG fullSatState 0 32 Color.A).sat 0).assignments.length
      = MAX_USERS_PER_SAT + 1 := by
  decide

/-- C2 as amended: `Satellite.assign` unconditionally sets the user's
status, records the channel and appends the user to the satellite's list,
touching nothing else; it checks no precondition and has no failure
path. -/
theorem C2_amended_assign_unconditional :
    ∀ {Pos : Type} (g : GState Pos) (sid uid : Nat) (c : Color),
      (∀ w, (assignG g sid uid c).user w =
        if w = uid then
          { vector := (g.user uid).vector, assigned := true, color := some c }
        else g.user w) ∧
      (∀ s2, (assignG g sid uid c).sat s2 =
        if s2 = sid then
          { vector := (g.sat sid).vector
            assignments := (g.sat sid).assignments ++ [uid]
            visible_users := (g.sat sid).visible_users }
        else g.sat s2) ∧
      (assignG g sid uid c).userKeys = g.userKeys ∧
      (assignG g sid uid c).satKeys = g.satKeys := by
  intro Pos g sid uid c
  refine ⟨fun w => ?_, fun s2 => ?_, rfl, rfl⟩
  · unfold assignG
    simp [Function.update_apply]
  · unfold assignG
    simp [Function.update_apply]

/-- C10: `solve` reads and writes the module-level registries without
clearing them.  After a first call that registers user 1 (with no
satellites), a second call with user 2 and satellite 10 sees the stale
user 1 in the new satellite's visibility list and returns a mapping that
also assigns user 1 — unlike the same call made on a fresh interpreter,
which returns only user 2. -/
theorem C10_stale_registries_change_result :
    ((solveG alwaysVisible neverIntf [(2, 0)] [(10, 0)]
        (solveG alwaysVisible neverIntf [(1, 0)] [] (emptyG Int)).2).2.sat 10).visible_users
      = [1, 2] ∧
    (solveG alwaysVisible neverIntf [(2, 0)] [(10, 0)]
        (solveG alwaysVisible neverIntf [(1, 0)] [] (emptyG Int)).2).1
      = [(1, 10, Color.A), (2, 10, Color.A)] ∧
    (solveFresh alwaysVisible neverIntf [(2, 0)] [(10, 0)]).1 = [(2, 10, Color.A)] ∧
    (solveG alwaysVisible neverIntf [(2, 0)] [(10, 0)]
        (solveG alwaysVisible neverIntf [(1, 0)] [] (emptyG Int)).2).1
      ≠ (solveFresh alwaysVisible neverIntf [(2, 0)] [(10, 0)]).1 := by
  refine ⟨by decide, by decide, by decide, by decide⟩

/-! ## Dict and list helper lemmas -/

theorem dictUpd_mem {β : Type} {d : List (Nat × β)} {k : Nat} {v : β} :
    ∀ e ∈ dictUpd d k v, e = (k, v) ∨ (e ∈ d ∧ e.1 ≠ k) := by
  intro e he
  unfold dictUpd at he
  by_cases h : d.any (fun p => decide (p.1 = k)) = true
  · rw [if_pos h] at he
    rw [List.mem_map] at he
    obtain ⟨p, hp, hpe⟩ := he
    by_cases hk : p.1 = k
    · rw [if_pos hk] at hpe
      exact Or.inl hpe.symm
    · rw [if_neg hk] at hpe
      exact Or.inr ⟨hpe ▸ hp, hpe ▸ hk⟩
  · rw [if_neg h] at he
    rw [List.mem_append] at he
    rcases he with he | he
    · refine Or.inr ⟨he, fun hk => h ?_⟩
      rw [List.any_eq_true]
      exact ⟨e, he, by simp [hk]⟩
    · simp only [List.mem_singleton] at he
      exact Or.inl he

theorem dictUpd_mem_weak {β : Type} {d : List (Nat × β)} {k : Nat} {v : β} :
    ∀ e ∈ dictUpd d k v, e = (k, v) ∨ e ∈ d := by
  intro e he
  rcases dictUpd_mem e he with h | h
  · exact Or.inl h
  · exact Or.inr h.1

theorem dictUpd_keys {β : Type} (d : List (Nat × β)) (k : Nat) (v : β) :
    (dictUpd d k v).map (fun e => e.1) = d.map (fun e => e.1) ∨
    (dictUpd d k v).map (fun e => e.1) = d.map (fun e => e.1) ++ [k] := by
  unfold dictUpd
  by_cases h : d.any (fun p => decide (p.1 = k)) = true
  · rw [if_pos h]
    left
    rw [List.map_map]
    refine List.map_congr_left fun p _ => ?_
    by_cases hk : p.1 = k
    · simp [hk]
    · simp [hk]
  · rw [if_neg h]
    right
    simp

theorem dictUpd_keys_nodup {β : Type} {d : List (Nat × β)} {k : Nat} {v : β}
    (h : (d.map (fun e => e.1)).Nodup) :
    ((dictUpd d k v).map (fun e => e.1)).Nodup := by
  unfold dictUpd
  by_cases hm : d.any (fun p => decide (p.1 = k)) = true
  · rw [if_pos hm]
    have : (d.map (fun p => if p.1 = k then (k, v) else p)).map (fun e => e.1)
        = d.map (fun e => e.1) := by
      rw [List.map_map]
      refine List.map_congr_left fun p _ => ?_
      by_cases hk : p.1 = k
      · simp [hk]
      · simp [hk]
    rw [this]
    exact h
  · rw [if_neg hm]
    rw [List.map_append]
    simp only [List.map_cons, List.map_nil]
    rw [List.nodup_append]
    refine ⟨h, List.nodup_singleton k, fun a ha hk => ?_⟩
    simp only [List.mem_singleton] at hk
    subst hk
    rw [List.mem_map] at ha
    obtain ⟨p, hp, hpk⟩ := ha
    exact absurd (List.any_eq_true.mpr ⟨p, hp, by simp [hpk]⟩) hm

theorem dictUpd_keys_mono {β : Type} {d : List (Nat × β)} {k k2 : Nat} {v : β}
    (h : k2 ∈ d.map (fun e => e.1)) :
    k2 ∈ (dictUpd d k v).map (fun e => e.1) := by
  rcases dictUpd_keys d k v with hk | hk
  · rw [hk]
    exact h
  · rw [hk, List.mem_append]
    exact Or.inl h

theorem dictUpd_key_self {β : Type} (d : List (Nat × β)) (k : Nat) (v : β) :
    k ∈ (dictUpd d k v).map (fun e => e.1) := by
  unfold dictUpd
  by_cases h : d.any (fun p => decide (p.1 = k)) = true
  · rw [if_pos h]
    rw [List.any_eq_true] at h
    obtain ⟨p, hp, hpk⟩ := h
    simp only [decide_eq_true_eq] at hpk
    rw [List.mem_map]
    refine ⟨(k, v), ?_, rfl⟩
    rw [List.mem_map]
    exact ⟨p, hp, by rw [if_pos hpk]⟩
  · rw [if_neg h]
    simp

theorem pyRemove_cons (uid x : Nat) (xs : List Nat) :
    pyRemove uid (x :: xs) =
      if x = uid then
        (match xs with
          | [] => []
          | y :: ys => y :: pyRemove uid ys)
      else x :: pyRemove uid xs := by
  rw [pyRemove.eq_def]

theorem pyRemove_sublist (uid : Nat) : ∀ l : List Nat, (pyRemove uid l).Sublist l := by
  have key : ∀ n, ∀ l : List Nat, l.length ≤ n → (pyRemove uid l).Sublist l := by
    intro n
    induction n with
    | zero =>
      intro l h
      match l with
      | [] => exact List.nil_sublist []
    | succ n ih =>
      intro l h
      match l with
      | [] => exact List.nil_sublist []
      | x :: xs =>
        rw [pyRemove_cons]
        by_cases hx : x = uid
        · rw [if_pos hx]
          match xs with
          | [] => exact List.nil_sublist _
          | y :: ys =>
            simp only [List.length_cons] at h
            exact ((ih ys (by omega)).cons₂ y).cons x
        · rw [if_neg hx]
          simp only [List.length_cons] at h
          exact (ih xs (by omega)).cons₂ x
  exact fun l => key l.length l (le_refl _)

theorem pyRemove_subset {uid w : Nat} {l : List Nat} (h : w ∈ pyRemove uid l) : w ∈ l :=
  (pyRemove_sublist uid l).subset h

theorem pyRemove_length_le (uid : Nat) (l : List Nat) :
    (pyRemove uid l).length ≤ l.length :=
  (pyRemove_sublist uid l).length_le

theorem pyRemove_mem_of_ne {uid w : Nat} :
    ∀ {l : List Nat}, w ∈ l → w ≠ uid → w ∈ pyRemove uid l := by
  have key : ∀ n, ∀ l : List Nat, l.length ≤ n → w ∈ l → w ≠ uid → w ∈ pyRemove uid l := by
    intro n
    induction n with
    | zero =>
      intro l h hw _
      match l with
      | [] => exact absurd hw (List.not_mem_nil w)
    | succ n ih =>
      intro l h hw hne
      match l with
      | [] => exact absurd hw (List.not_mem_nil w)
      | x :: xs =>
        rw [pyRemove_cons]
        by_cases hx : x = uid
        · rw [if_pos hx]
          match xs with
          | [] =>
            rcases List.mem_cons.mp hw with h1 | h1
            · exact absurd (h1.trans hx) hne
            · exact absurd h1 (List.not_mem_nil w)
          | y :: ys =>
            rcases List.mem_cons.mp hw with h1 | h1
            · exact absurd (h1.trans hx) hne
            · rcases List.mem_cons.mp h1 with h2 | h2
              · exact h2 ▸ List.mem_cons_self y _
              · simp only [List.length_cons] at h
                exact List.mem_cons_of_mem y (ih ys (by omega) h2 hne)
        · rw [if_neg hx]
          rcases List.mem_cons.mp hw with h1 | h1
          · exact h1 ▸ List.mem_cons_self x _
          · simp only [List.length_cons] at h
            exact List.mem_cons_of_mem x (ih xs (by omega) h1 hne)
  exact fun {l} => key l.length l (le_refl _)

theorem pyRemove_length_lt {uid : Nat} :
    ∀ {l : List Nat}, uid ∈ l → (pyRemove uid l).length < l.length := by
  have key : ∀ n, ∀ l : List Nat, l.length ≤ n → uid ∈ l →
      (pyRemove uid l).length < l.length := by
    intro n
    induction n with
    | zero =>
      intro l h hm
      match l with
      | [] => exact absurd hm (List.not_mem_nil uid)
    | succ n ih =>
      intro l h hm
      match l with
      | [] => exact absurd hm (List.not_mem_nil uid)
      | x :: xs =>
        rw [pyRemove_cons]
        by_cases hx : x = uid
        · rw [if_pos hx]
          match xs with
          | [] => exact Nat.zero_lt_one
          | y :: ys =>
            have := pyRemove_length_le uid ys
            simp only [List.length_cons]
            omega
        · rw [if_neg hx]
          rcases List.mem_cons.mp hm with h1 | h1
          · exact absurd h1.symm hx
          · simp only [List.length_cons] at h ⊢
            have := ih xs (by omega) h1
            omega
  exact fun {l} => key l.length l (le_refl _)

theorem nodup_length_le_of_subset {l m : List Nat} (hn : l.Nodup)
    (hs : ∀ x ∈ l, x ∈ m) : l.length ≤ m.length := by
  calc l.length = l.toFinset.card := (List.toFinset_card_of_nodup hn).symm
    _ ≤ m.toFinset.card := by
        refine Finset.card_le_card fun x hx => ?_
        rw [List.mem_toFinset] at hx ⊢
        exact hs x hx
    _ ≤ m.length := m.toFinset_card_le

/-! ## Characterizations of the satellite operations -/

section OpLemmas

variable {Pos : Type} {vis : Pos → Pos → Bool} {intf : Pos → Pos → Pos → Bool}

theorem availB_true_iff {g : GState Pos} {sid uid : Nat} {c : Color} :
    availB intf g sid uid c = true ↔
      (g.sat sid).assignments.length < MAX_USERS_PER_SAT ∧
      ∀ oid ∈ (g.sat sid).assignments, (g.user oid).color = some c →
        intf (g.sat sid).vector (g.user uid).vector (g.user oid).vector = false := by
  unfold availB
  rw [Bool.and_eq_true, decide_eq_true_eq, List.all_eq_true]
  refine and_congr_right fun _ => ?_
  constructor
  · intro h oid ho hc
    have h2 := h oid ho
    rw [if_pos hc] at h2
    simpa using h2
  · intro h oid ho
    by_cases hc : (g.user oid).color = some c
    · rw [if_pos hc]
      simp [h oid ho hc]
    · rw [if_neg hc]

theorem conflictsG_mem_iff {g : GState Pos} {sid uid oid : Nat} {c : Color} :
    oid ∈ conflictsG intf g sid uid c ↔
      oid ∈ (g.sat sid).assignments ∧ (g.user oid).color = some c ∧
        intf (g.sat sid).vector (g.user uid).vector (g.user oid).vector = true := by
  unfold conflictsG
  simp only [List.mem_filter, Bool.and_eq_true, decide_eq_true_eq, and_assoc]

theorem conflictsG_sublist (g : GState Pos) (sid uid : Nat) (c : Color) :
    (conflictsG intf g sid uid c).Sublist (g.sat sid).assignments :=
  List.filter_sublist _

theorem canMakeRoom_true_iff {g : GState Pos} {sid uid : Nat} {c : Color} :
    canMakeRoomG intf g sid uid c = true ↔
      conflictsG intf g sid uid c ≠ [] ∧
      ∀ cu ∈ conflictsG intf g sid uid c,
        ∃ c2 ∈ COLORS, c2 ≠ c ∧ availB intf g sid cu c2 = true := by
  unfold canMakeRoomG
  simp only [Bool.and_eq_true, decide_eq_true_eq, List.all_eq_true, List.any_eq_true,
    Bool.not_eq_true', decide_eq_false_iff_not, List.length_pos]
  refine and_congr_right fun _ => ?_
  constructor
  · intro h cu hcu
    obtain ⟨c2, hc2, hne, hav⟩ := h cu hcu
    exact ⟨c2, hc2, Ne.symm hne, hav⟩
  · intro h cu hcu
    obtain ⟨c2, hc2, hne, hav⟩ := h cu hcu
    exact ⟨c2, hc2, Ne.symm hne, hav⟩

theorem makeRoom_entry {g : GState Pos} {sid uid : Nat} {c : Color} :
    ∀ pr ∈ makeRoomG intf g sid uid c,
      pr.1 ∈ conflictsG intf g sid uid c ∧ pr.2 ≠ c ∧
        availB intf g sid pr.1 pr.2 = true := by
  unfold makeRoomG
  have key : ∀ (cs : List Nat) (acc : List (Nat × Color)),
      (∀ cu ∈ cs, cu ∈ conflictsG intf g sid uid c) →
      (∀ pr ∈ acc, pr.1 ∈ conflictsG intf g sid uid c ∧ pr.2 ≠ c ∧
        availB intf g sid pr.1 pr.2 = true) →
      ∀ pr ∈ cs.foldl
        (fun acc cu =>
          match COLORS.find? (fun c2 => !(decide (c = c2)) && availB intf g sid cu c2) with
          | some c2 => dictUpd acc cu c2
          | none => acc) acc,
        pr.1 ∈ conflictsG intf g sid uid c ∧ pr.2 ≠ c ∧
          availB intf g sid pr.1 pr.2 = true := by
    intro cs
    induction cs with
    | nil => exact fun acc _ hacc => hacc
    | cons cu rest ih =>
      intro acc hcs hacc
      rw [List.foldl_cons]
      cases hf : COLORS.find? (fun c2 => !(decide (c = c2)) && availB intf g sid cu c2) with
      | none =>
        exact ih acc (fun w hw => hcs w (List.mem_cons_of_mem cu hw)) hacc
      | some c2 =>
        refine ih (dictUpd acc cu c2) (fun w hw => hcs w (List.mem_cons_of_mem cu hw)) ?_
        intro pr hpr
        rcases dictUpd_mem_weak pr hpr with h | h
        · subst h
          have hp := List.find?_some hf
          rw [Bool.and_eq_true, Bool.not_eq_true', decide_eq_false_iff_not] at hp
          exact ⟨hcs cu (List.mem_cons_self cu rest), Ne.symm hp.1, hp.2⟩
        · exact hacc pr h
  exact key (conflictsG intf g sid uid c) [] (fun cu h => h) (fun pr h => absurd h (List.not_mem_nil pr))

theorem makeRoom_keys_nodup (g : GState Pos) (sid uid : Nat) (c : Color) :
    ((makeRoomG intf g sid uid c).map (fun e => e.1)).Nodup := by
  unfold makeRoomG
  have key : ∀ (cs : List Nat) (acc : List (Nat × Color)),
      ((acc.map (fun e => e.1)).Nodup) →
      ((cs.foldl
        (fun acc cu =>
          match COLORS.find? (fun c2 => !(decide (c = c2)) && availB intf g sid cu c2) with
          | some c2 => dictUpd acc cu c2
          | none => acc) acc).map (fun e => e.1)).Nodup := by
    intro cs
    induction cs with
    | nil => exact fun acc h => h
    | cons cu rest ih =>
      intro acc hacc
      rw [List.foldl_cons]
      cases hf : COLORS.find? (fun c2 => !(decide (c = c2)) && availB intf g sid cu c2) with
      | none =>
        exact ih acc hacc
      | some c2 =>
        exact ih (dictUpd acc cu c2) (dictUpd_keys_nodup hacc)
  exact key (conflictsG intf g sid uid c) [] List.nodup_nil

theorem makeRoom_keys_sublist (g : GState Pos) (sid uid : Nat) (c : Color) :
    ((makeRoomG intf g sid uid c).map (fun e => e.1)).Sublist
      (conflictsG intf g sid uid c) := by
  unfold makeRoomG
  have key : ∀ (cs : List Nat) (acc : List (Nat × Color)),
      ∃ l, l.Sublist cs ∧
        (cs.foldl
          (fun acc cu =>
            match COLORS.find? (fun c2 => !(decide (c = c2)) && availB intf g sid cu c2) with
            | some c2 => dictUpd acc cu c2
            | none => acc) acc).map (fun e => e.1) = acc.map (fun e => e.1) ++ l := by
    intro cs
    induction cs with
    | nil => exact fun acc => ⟨[], List.nil_sublist [], by simp⟩
    | cons cu rest ih =>
      intro acc
      rw [List.foldl_cons]
      cases hf : COLORS.find? (fun c2 => !(decide (c = c2)) && availB intf g sid cu c2) with
      | none =>
        obtain ⟨l, hl, hk⟩ := ih acc
        exact ⟨l, hl.cons cu, hk⟩
      | some c2 =>
        obtain ⟨l, hl, hk⟩ := ih (dictUpd acc cu c2)
        rcases dictUpd_keys acc cu c2 with hkk | hkk
        · exact ⟨l, hl.cons cu, by rw [hk, hkk]⟩
        · refine ⟨cu :: l, hl.cons₂ cu, ?_⟩
          rw [hk, hkk, List.append_assoc]
          rfl
  obtain ⟨l, hl, hk⟩ := key (conflictsG intf g sid uid c) []
  rw [hk]
  simpa using hl

theorem makeRoom_covers {g : GState Pos} {sid uid : Nat} {c : Color}
    (hall : ∀ cu ∈ conflictsG intf g sid uid c,
      ∃ c2 ∈ COLORS, c2 ≠ c ∧ availB intf g sid cu c2 = true) :
    ∀ cu ∈ conflictsG intf g sid uid c,
      cu ∈ (makeRoomG intf g sid uid c).map (fun e => e.1) := by
  unfold makeRoomG
  have key : ∀ (cs : List Nat) (acc : List (Nat × Color)),
      (∀ cu ∈ cs, ∃ c2 ∈ COLORS, c2 ≠ c ∧ availB intf g sid cu c2 = true) →
      ∀ cu, (cu ∈ cs ∨ cu ∈ acc.map (fun e => e.1)) →
      cu ∈ (cs.foldl
        (fun acc cu =>
          match COLORS.find? (fun c2 => !(decide (c = c2)) && availB intf g sid cu c2) with
          | some c2 => dictUpd acc cu c2
          | none => acc) acc).map (fun e => e.1) := by
    intro cs
    induction cs with
    | nil =>
      intro acc _ cu hcu
      rcases hcu with h | h
      · exact absurd h (List.not_mem_nil cu)
      · exact h
    | cons cu0 rest ih =>
      intro acc hall2 cu hcu
      rw [List.foldl_cons]
      cases hf : COLORS.find? (fun c2 => !(decide (c = c2)) && availB intf g sid cu0 c2) with
      | none =>
        obtain ⟨c2, hc2, hne, hav⟩ := hall2 cu0 (List.mem_cons_self cu0 rest)
        have : COLORS.find? (fun c2 => !(decide (c = c2)) && availB intf g sid cu0 c2) ≠ none := by
          rw [ne_eq, List.find?_eq_none]
          push_neg
          exact ⟨c2, hc2, by simp [Ne.symm hne, hav]⟩
        exact absurd hf this
      | some c2 =>
        refine ih (dictUpd acc cu0 c2) (fun w hw => hall2 w (List.mem_cons_of_mem cu0 hw)) cu ?_
        rcases hcu with h | h
        · rcases List.mem_cons.mp h with h1 | h1
          · exact Or.inr (h1 ▸ dictUpd_key_self acc cu0 c2)
          · exact Or.inl h1
        · exact Or.inr (dictUpd_keys_mono h)
  intro cu hcu
  exact key (conflictsG intf g sid uid c) [] hall cu (Or.inl hcu)

end OpLemmas

/-! ## Effect of the mutators on the state -/

section MutLemmas

variable {Pos : Type} {vis : Pos → Pos → Bool} {intf : Pos → Pos → Pos → Bool}

theorem assignG_user_apply (g : GState Pos) (sid uid : Nat) (c : Color) (w : Nat) :
    (assignG g sid uid c).user w =
      if w = uid then
        { vector := (g.user uid).vector, assigned := true, color := some c }
      else g.user w := by
  unfold assignG
  simp [Function.update_apply]

theorem assignG_sat_apply (g : GState Pos) (sid uid : Nat) (c : Color) (s2 : Nat) :
    (assignG g sid uid c).sat s2 =
      if s2 = sid then
        { vector := (g.sat sid).vector
          assignments := (g.sat sid).assignments ++ [uid]
          visible_users := (g.sat sid).visible_users }
      else g.sat s2 := by
  unfold assignG
  simp [Function.update_apply]

theorem assignG_uvec (g : GState Pos) (sid uid : Nat) (c : Color) (w : Nat) :
    ((assignG g sid uid c).user w).vector = (g.user w).vector := by
  rw [assignG_user_apply]
  by_cases h : w = uid
  · rw [if_pos h, h]
  · rw [if_neg h]

theorem assignG_color (g : GState Pos) (sid uid : Nat) (c : Color) (w : Nat) :
    ((assignG g sid uid c).user w).color =
      if w = uid then some c else (g.user w).color := by
  rw [assignG_user_apply]
  by_cases h : w = uid
  · rw [if_pos h, if_pos h]
  · rw [if_neg h, if_neg h]

theorem assignG_assigned (g : GState Pos) (sid uid : Nat) (c : Color) (w : Nat) :
    ((assignG g sid uid c).user w).assigned =
      if w = uid then true else (g.user w).assigned := by
  rw [assignG_user_apply]
  by_cases h : w = uid
  · rw [if_pos h, if_pos h]
  · rw [if_neg h, if_neg h]

theorem assignG_svec (g : GState Pos) (sid uid : Nat) (c : Color) (s2 : Nat) :
    ((assignG g sid uid c).sat s2).vector = (g.sat s2).vector := by
  rw [assignG_sat_apply]
  by_cases h : s2 = sid
  · rw [if_pos h, h]
  · rw [if_neg h]

theorem assignG_svis (g : GState Pos) (sid uid : Nat) (c : Color) (s2 : Nat) :
    ((assignG g sid uid c).sat s2).visible_users = (g.sat s2).visible_users := by
  rw [assignG_sat_apply]
  by_cases h : s2 = sid
  · rw [if_pos h, h]
  · rw [if_neg h]

theorem assignG_asg (g : GState Pos) (sid uid : Nat) (c : Color) (s2 : Nat) :
    ((assignG g sid uid c).sat s2).assignments =
      if s2 = sid then (g.sat sid).assignments ++ [uid]
      else (g.sat s2).assignments := by
  rw [assignG_sat_apply]
  by_cases h : s2 = sid
  · rw [if_pos h, if_pos h]
  · rw [if_neg h, if_neg h]

theorem unassignG_user (g : GState Pos) (sid uid : Nat) :
    (unassignG g sid uid).user = g.user := rfl

theorem unassignG_sat_apply (g : GState Pos) (sid uid : Nat) (s2 : Nat) :
    (unassignG g sid uid).sat s2 =
      if s2 = sid then
        { vector := (g.sat sid).vector
          assignments := pyRemove uid (g.sat sid).assignments
          visible_users := (g.sat sid).visible_users }
      else g.sat s2 := by
  unfold unassignG
  simp [Function.update_apply]

theorem unassignG_svec (g : GState Pos) (sid uid : Nat) (s2 : Nat) :
    ((unassignG g sid uid).sat s2).vector = (g.sat s2).vector := by
  rw [unassignG_sat_apply]
  by_cases h : s2 = sid
  · rw [if_pos h, h]
  · rw [if_neg h]

theorem unassignG_svis (g : GState Pos) (sid uid : Nat) (s2 : Nat) :
    ((unassignG g sid uid).sat s2).visible_users = (g.sat s2).visible_users := by
  rw [unassignG_sat_apply]
  by_cases h : s2 = sid
  · rw [if_pos h, h]
  · rw [if_neg h]

theorem unassignG_asg (g : GState Pos) (sid uid : Nat) (s2 : Nat) :
    ((unassignG g sid uid).sat s2).assignments =
      if s2 = sid then pyRemove uid (g.sat sid).assignments
      else (g.sat s2).assignments := by
  rw [unassignG_sat_apply]
  by_cases h : s2 = sid
  · rw [if_pos h, if_pos h]
  · rw [if_neg h, if_neg h]

theorem frame_refl (g : GState Pos) : Frame g g :=
  ⟨rfl, rfl, fun _ => rfl, fun _ => rfl, fun _ => rfl⟩

theorem frame_trans {g h i : GState Pos} (h1 : Frame g h) (h2 : Frame h i) :
    Frame g i :=
  ⟨h2.ukeys.trans h1.ukeys, h2.skeys.trans h1.skeys,
    fun w => (h2.uvec w).trans (h1.uvec w),
    fun sid => (h2.svec sid).trans (h1.svec sid),
    fun sid => (h2.svis sid).trans (h1.svis sid)⟩

theorem assignG_frame (g : GState Pos) (sid uid : Nat) (c : Color) :
    Frame g (assignG g sid uid c) :=
  ⟨rfl, rfl, assignG_uvec g sid uid c, assignG_svec g sid uid c,
    assignG_svis g sid uid c⟩

theorem unassignG_frame (g : GState Pos) (sid uid : Nat) :
    Frame g (unassignG g sid uid) :=
  ⟨rfl, rfl, fun _ => rfl, unassignG_svec g sid uid, unassignG_svis g sid uid⟩

theorem reassignG_frame (g : GState Pos) (sid uid : Nat) (c : Color) :
    Frame g (reassignG g sid uid c) :=
  frame_trans (unassignG_frame g sid uid)
    (assignG_frame (unassignG g sid uid) sid uid c)

end MutLemmas

/-! ## Invariant preservation by the mutators -/

section InvMutLemmas

variable {Pos : Type} {vis : Pos → Pos → Bool} {intf : Pos → Pos → Pos → Bool}

theorem assign_inv {g : GState Pos} {sid uid : Nat} {c : Color}
    (hI : Inv vis intf g)
    (hcap : (g.sat sid).assignments.length < MAX_USERS_PER_SAT)
    (hvis : uid ∈ (g.sat sid).visible_users)
    (hcross : ∀ s2, s2 ≠ sid → uid ∉ (g.sat s2).assignments)
    (hno : SafeFor intf g sid uid c) :
    Inv vis intf (assignG g sid uid c) := by
  constructor
  · exact hI.ukeys_nodup
  · intro s
    rw [assignG_svis]
    exact hI.vnodup s
  · intro s u hu
    rw [assignG_svis] at hu
    exact hI.vkeys s u hu
  · intro s u hu
    rw [assignG_svis] at hu
    rw [assignG_svec, assignG_uvec]
    exact hI.vvis s u hu
  · intro s
    rw [assignG_asg]
    by_cases h : s = sid
    · rw [if_pos h, List.length_append, List.length_singleton]
      omega
    · rw [if_neg h]
      exact hI.cap s
  · intro s u hu
    rw [assignG_assigned]
    by_cases huid : u = uid
    · rw [if_pos huid]
    · rw [if_neg huid]
      rw [assignG_asg] at hu
      by_cases h : s = sid
      · rw [if_pos h] at hu
        rcases List.mem_append.mp hu with h1 | h1
        · exact hI.masg sid u h1
        · rw [List.mem_singleton] at h1
          exact absurd h1 huid
      · rw [if_neg h] at hu
        exact hI.masg s u hu
  · intro s u hu
    rw [assignG_svis]
    rw [assignG_asg] at hu
    by_cases h : s = sid
    · rw [if_pos h] at hu
      subst h
      rcases List.mem_append.mp hu with h1 | h1
      · exact hI.mvis s u h1
      · rw [List.mem_singleton] at h1
        subst h1
        exact hvis
    · rw [if_neg h] at hu
      exact hI.mvis s u hu
  · intro s1 s2 hne u hu1 hu2
    rw [assignG_asg] at hu1 hu2
    by_cases h1 : s1 = sid <;> by_cases h2 : s2 = sid
    · exact hne (h1.trans h2.symm)
    · rw [if_pos h1] at hu1
      rw [if_neg h2] at hu2
      rcases List.mem_append.mp hu1 with ha | ha
      · exact hI.cross sid s2 (h1 ▸ hne) u ha hu2
      · rw [List.mem_singleton] at ha
        subst ha
        exact hcross s2 h2 hu2
    · rw [if_neg h1] at hu1
      rw [if_pos h2] at hu2
      rcases List.mem_append.mp hu2 with ha | ha
      · exact hI.cross s1 sid h1 u hu1 ha
      · rw [List.mem_singleton] at ha
        subst ha
        exact hcross s1 h1 hu1
    · rw [if_neg h1] at hu1
      rw [if_neg h2] at hu2
      exact hI.cross s1 s2 hne u hu1 hu2
  · intro s
    rw [assignG_asg]
    by_cases h : s = sid
    · rw [if_pos h]
      subst h
      rw [List.pairwise_append]
      refine ⟨?_, List.pairwise_singleton _ _, ?_⟩
      · refine (hI.pw s).imp_of_mem ?_
        intro a b ha hb hab hne hcol
        rw [assignG_color, assignG_color] at hcol
        rw [assignG_svec, assignG_uvec, assignG_uvec]
        by_cases hau : a = uid <;> by_cases hbu : b = uid
        · exact absurd (hau.trans hbu.symm) hne
        · rw [if_pos hau, if_neg hbu] at hcol
          subst hau
          rcases hno b hb hbu hcol.symm with hd | hd
          · exact Or.inr hd
          · exact Or.inl hd
        · rw [if_neg hau, if_pos hbu] at hcol
          subst hbu
          rcases hno a ha hau hcol with hd | hd
          · exact Or.inl hd
          · exact Or.inr hd
        · rw [if_neg hau, if_neg hbu] at hcol
          exact hab hne hcol
      · intro a ha b hb
        rw [List.mem_singleton] at hb
        subst hb
        intro hne hcol
        rw [assignG_color, assignG_color] at hcol
        rw [if_pos rfl, if_neg hne] at hcol
        rw [assignG_svec, assignG_uvec, assignG_uvec]
        exact hno a ha hne hcol
    · rw [if_neg h]
      refine (hI.pw s).imp_of_mem ?_
      intro a b ha hb hab hne hcol
      have hau : a ≠ uid := fun he => (hcross s h) (he ▸ ha)
      have hbu : b ≠ uid := fun he => (hcross s h) (he ▸ hb)
      rw [assignG_color, assignG_color, if_neg hau, if_neg hbu] at hcol
      rw [assignG_svec, assignG_uvec, assignG_uvec]
      exact hab hne hcol

theorem unassign_inv {g : GState Pos} {sid uid : Nat}
    (hI : Inv vis intf g) : Inv vis intf (unassignG g sid uid) := by
  constructor
  · exact hI.ukeys_nodup
  · intro s
    rw [unassignG_svis]
    exact hI.vnodup s
  · intro s u hu
    rw [unassignG_svis] at hu
    exact hI.vkeys s u hu
  · intro s u hu
    rw [unassignG_svis] at hu
    rw [unassignG_svec, unassignG_user]
    exact hI.vvis s u hu
  · intro s
    rw [unassignG_asg]
    by_cases h : s = sid
    · rw [if_pos h]
      exact le_trans (pyRemove_length_le uid _) (hI.cap sid)
    · rw [if_neg h]
      exact hI.cap s
  · intro s u hu
    rw [unassignG_asg] at hu
    rw [unassignG_user]
    by_cases h : s = sid
    · rw [if_pos h] at hu
      exact hI.masg sid u (pyRemove_subset hu)
    · rw [if_neg h] at hu
      exact hI.masg s u hu
  · intro s u hu
    rw [unassignG_asg] at hu
    rw [unassignG_svis]
    by_cases h : s = sid
    · rw [if_pos h] at hu
      subst h
      exact hI.mvis s u (pyRemove_subset hu)
    · rw [if_neg h] at hu
      exact hI.mvis s u hu
  · intro s1 s2 hne u hu1 hu2
    rw [unassignG_asg] at hu1 hu2
    by_cases h1 : s1 = sid <;> by_cases h2 : s2 = sid
    · exact hne (h1.trans h2.symm)
    · rw [if_pos h1] at hu1
      rw [if_neg h2] at hu2
      exact hI.cross sid s2 (h1 ▸ hne) u (pyRemove_subset hu1) hu2
    · rw [if_neg h1] at hu1
      rw [if_pos h2] at hu2
      exact hI.cross s1 sid h1 u hu1 (pyRemove_subset hu2)
    · rw [if_neg h1] at hu1
      rw [if_neg h2] at hu2
      exact hI.cross s1 s2 hne u hu1 hu2
  · intro s
    rw [unassignG_asg]
    have htrans : ∀ l : List Nat, List.Pairwise (PairOk intf g s) l →
        List.Pairwise (PairOk intf (unassignG g sid uid) s) l := by
      intro l hl
      refine hl.imp ?_
      intro a b hab hne hcol
      rw [unassignG_svec]
      exact hab hne hcol
    by_cases h : s = sid
    · rw [if_pos h]
      exact htrans _ ((hI.pw s).sublist (h ▸ pyRemove_sublist uid (g.sat sid).assignments))
    · rw [if_neg h]
      exact htrans _ (hI.pw s)

theorem reassign_inv {g : GState Pos} {sid cu : Nat} {nc : Color}
    (hI : Inv vis intf g)
    (hcu : cu ∈ (g.sat sid).assignments)
    (hsafe : SafeFor intf g sid cu nc) :
    Inv vis intf (reassignG g sid cu nc) := by
  unfold reassignG
  refine assign_inv (unassign_inv hI) ?_ ?_ ?_ ?_
  · rw [unassignG_asg, if_pos rfl]
    exact lt_of_lt_of_le (pyRemove_length_lt hcu) (hI.cap sid)
  · rw [unassignG_svis]
    exact hI.mvis sid cu hcu
  · intro s2 hs2
    rw [unassignG_asg, if_neg hs2]
    exact hI.cross sid s2 (Ne.symm hs2) cu hcu
  · intro v hv hne hcol
    rw [unassignG_asg, if_pos rfl] at hv
    rw [unassignG_svec]
    exact hsafe v (pyRemove_subset hv) hne hcol

theorem reassign_asg_self (g : GState Pos) (sid cu : Nat) (nc : Color) :
    ((reassignG g sid cu nc).sat sid).assignments =
      pyRemove cu (g.sat sid).assignments ++ [cu] := by
  unfold reassignG
  rw [assignG_asg, if_pos rfl, unassignG_asg, if_pos rfl]

theorem reassign_asg_other (g : GState Pos) (sid cu : Nat) (nc : Color)
    {s2 : Nat} (h : s2 ≠ sid) :
    ((reassignG g sid cu nc).sat s2).assignments = (g.sat s2).assignments := by
  unfold reassignG
  rw [assignG_asg, if_neg h, unassignG_asg, if_neg h]

theorem reassign_len_le {g : GState Pos} {sid cu : Nat} {nc : Color}
    (hcu : cu ∈ (g.sat sid).assignments) :
    ((reassignG g sid cu nc).sat sid).assignments.length ≤
      (g.sat sid).assignments.length := by
  rw [reassign_asg_self, List.length_append, List.length_singleton]
  have := pyRemove_length_lt hcu
  omega

theorem reassign_color (g : GState Pos) (sid cu : Nat) (nc : Color) (w : Nat) :
    ((reassignG g sid cu nc).user w).color =
      if w = cu then some nc else (g.user w).color := by
  unfold reassignG
  rw [assignG_color, unassignG_user]

theorem reassign_assigned (g : GState Pos) (sid cu : Nat) (nc : Color) (w : Nat) :
    ((reassignG g sid cu nc).user w).assigned =
      if w = cu then true else (g.user w).assigned := by
  unfold reassignG
  rw [assignG_assigned, unassignG_user]

end InvMutLemmas

/-! ## Solution consistency and the relocation loop -/

section RelocLemmas

variable {Pos : Type} {vis : Pos → Pos → Bool} {intf : Pos → Pos → Pos → Bool}

theorem reassign_sat_other (g : GState Pos) (sid cu : Nat) (nc : Color)
    {s2 : Nat} (h : s2 ≠ sid) :
    (reassignG g sid cu nc).sat s2 = g.sat s2 := by
  unfold reassignG
  rw [assignG_sat_apply, if_neg h, unassignG_sat_apply, if_neg h]

theorem solok_assign {g : GState Pos} {sol : Sol} {sid uid : Nat} {c : Color}
    (hS : SolOk (g, sol)) :
    SolOk (assignG g sid uid c, dictUpd sol uid (sid, c)) := by
  constructor
  · exact dictUpd_keys_nodup hS.keys_nodup
  · intro e he
    rcases dictUpd_mem e he with h | ⟨h, hne⟩
    · subst h
      rw [assignG_asg, if_pos rfl]
      exact List.mem_append_right _ (List.mem_singleton.mpr rfl)
    · rw [assignG_asg]
      by_cases hs : e.2.1 = sid
      · rw [if_pos hs]
        refine List.mem_append_left _ ?_
        rw [← hs]
        exact hS.mem e h
      · rw [if_neg hs]
        exact hS.mem e h
  · intro e he
    rcases dictUpd_mem e he with h | ⟨h, hne⟩
    · subst h
      rw [assignG_color, if_pos rfl]
    · rw [assignG_color, if_neg hne]
      exact hS.colorOk e h

theorem solok_reassign {g : GState Pos} {sol : Sol} {sid cu : Nat} {nc : Color}
    (hS : SolOk (g, sol)) :
    SolOk (reassignG g sid cu nc, dictUpd sol cu (sid, nc)) := by
  constructor
  · exact dictUpd_keys_nodup hS.keys_nodup
  · intro e he
    rcases dictUpd_mem e he with h | ⟨h, hne⟩
    · subst h
      rw [reassign_asg_self]
      exact List.mem_append_right _ (List.mem_singleton.mpr rfl)
    · by_cases hs : e.2.1 = sid
      · rw [hs, reassign_asg_self]
        refine List.mem_append_left _ (pyRemove_mem_of_ne ?_ hne)
        rw [← hs]
        exact hS.mem e h
      · rw [reassign_asg_other g sid cu nc hs]
        exact hS.mem e h
  · intro e he
    rcases dictUpd_mem e he with h | ⟨h, hne⟩
    · subst h
      rw [reassign_color, if_pos rfl]
    · rw [reassign_color, if_neg hne]
      exact hS.colorOk e h

theorem pairOk_symm (g : GState Pos) (sid : Nat) :
    Symmetric (PairOk intf g sid) := by
  intro a b hab hne hcol
  rcases hab hne.symm hcol.symm with h | h
  · exact Or.inr h
  · exact Or.inl h

theorem inv_pair_extract {g : GState Pos} (hI : Inv vis intf g) {sid a b : Nat}
    (ha : a ∈ (g.sat sid).assignments) (hb : b ∈ (g.sat sid).assignments)
    (hne : a ≠ b) (hcol : (g.user a).color = (g.user b).color) :
    intf (g.sat sid).vector (g.user b).vector (g.user a).vector = false ∨
      intf (g.sat sid).vector (g.user a).vector (g.user b).vector = false :=
  ((hI.pw sid).forall (pairOk_symm g sid) ha hb hne) hne hcol

theorem reloc_fold {sid : Nat} {c : Color} :
    ∀ (ras : List (Nat × Color)) (g : GState Pos) (sol : Sol),
      Inv vis intf g → SolOk (g, sol) →
      (ras.map (fun e => e.1)).Nodup →
      (∀ pr ∈ ras, pr.1 ∈ (g.sat sid).assignments ∧ (g.user pr.1).color = some c ∧
        pr.2 ≠ c ∧ SafeFor intf g sid pr.1 pr.2) →
      RelocOut vis intf g sol sid ras (List.foldl (relocStep sid) (g, sol) ras) := by
  intro ras
  induction ras with
  | nil =>
    intro g sol hI hS _ _
    exact ⟨hI, hS, le_refl _, fun _ _ => rfl, frame_refl g, fun v hv => hv,
      fun v hv => absurd hv (List.not_mem_nil v),
      fun w _ => rfl, fun w hw => hw⟩
  | cons pr rest ih =>
    intro g sol hI hS hnd hfacts
    obtain ⟨hcu, hcuc, hncc, hsafe⟩ := hfacts pr (List.mem_cons_self pr rest)
    rw [List.map_cons] at hnd
    have hnd2 := List.nodup_cons.mp hnd
    set cu := pr.1 with hcu_def
    set nc := pr.2 with hnc_def
    have hstep : List.foldl (relocStep sid) (g, sol) (pr :: rest) =
        List.foldl (relocStep sid) (reassignG g sid cu nc, dictUpd sol cu (sid, nc)) rest := by
      rw [List.foldl_cons]
      rfl
    set g1 := reassignG g sid cu nc with hg1
    set sol1 := dictUpd sol cu (sid, nc) with hsol1
    have hI1 : Inv vis intf g1 := reassign_inv hI hcu hsafe
    have hS1 : SolOk (g1, sol1) := solok_reassign hS
    have hfacts1 : ∀ pr2 ∈ rest, pr2.1 ∈ (g1.sat sid).assignments ∧
        (g1.user pr2.1).color = some c ∧ pr2.2 ≠ c ∧ SafeFor intf g1 sid pr2.1 pr2.2 := by
      intro pr2 hpr2
      obtain ⟨hm2, hc2, hn2, hsafe2⟩ := hfacts pr2 (List.mem_cons_of_mem pr hpr2)
      have hne2 : pr2.1 ≠ cu := by
        intro he
        exact hnd2.1 (he ▸ List.mem_map_of_mem (fun e => e.1) hpr2)
      refine ⟨?_, ?_, hn2, ?_⟩
      · rw [hg1, reassign_asg_self]
        exact List.mem_append_left _ (pyRemove_mem_of_ne hm2 hne2)
      · rw [hg1, reassign_color, if_neg hne2]
        exact hc2
      · intro v hv hvne hvcol
        rw [hg1, reassign_asg_self] at hv
        have hvec : ∀ w, (g1.user w).vector = (g.user w).vector :=
          (reassignG_frame g sid cu nc).uvec
        have hsvec : (g1.sat sid).vector = (g.sat sid).vector :=
          (reassignG_frame g sid cu nc).svec sid
        rw [hsvec, hvec, hvec]
        by_cases hvcu : v = cu
        · rw [hvcu]
          have hcol_eq : (g.user pr2.1).color = (g.user cu).color := by
            rw [hc2, hcuc]
          rcases inv_pair_extract hI hm2 hcu hne2 hcol_eq with h | h
          · exact Or.inr h
          · exact Or.inl h
        · rw [hg1, reassign_color, if_neg hvcu] at hvcol
          rcases List.mem_append.mp hv with h1 | h1
          · exact hsafe2 v (pyRemove_subset h1) hvne hvcol
          · rw [List.mem_singleton] at h1
            exact absurd h1 hvcu
    have hout := ih g1 sol1 hI1 hS1 hnd2.2 hfacts1
    rw [hstep]
    have hframe1 : Frame g g1 := reassignG_frame g sid cu nc
    refine ⟨hout.inv, hout.solok, ?_, ?_, frame_trans hframe1 hout.frame, ?_, ?_, ?_, ?_⟩
    · exact le_trans hout.len (reassign_len_le hcu)
    · intro s2 hs2
      rw [hout.others s2 hs2, hg1]
      exact reassign_sat_other g sid cu nc hs2
    · intro v hv
      have := hout.memback v hv
      rw [hg1, reassign_asg_self] at this
      rcases List.mem_append.mp this with h1 | h1
      · exact pyRemove_subset h1
      · rw [List.mem_singleton] at h1
        exact h1 ▸ hcu
    · intro v hv
      rw [List.map_cons] at hv
      rcases List.mem_cons.mp hv with h1 | h1
      · have hnm : v ∉ rest.map (fun e => e.1) := by
          rw [h1]
          exact hnd2.1
        refine ⟨pr, List.mem_cons_self pr rest, h1, ?_⟩
        rw [hout.other_color v hnm, h1, hg1, reassign_color, if_pos rfl]
      · obtain ⟨pr2, hpr2, heq, hc2⟩ := hout.reloc_color v h1
        exact ⟨pr2, List.mem_cons_of_mem pr hpr2, heq, hc2⟩
    · intro w hw
      rw [List.map_cons] at hw
      have hw1 : w ≠ cu := fun he => hw (he ▸ List.mem_cons_self cu _)
      have hw2 : w ∉ rest.map (fun e => e.1) := fun hm => hw (List.mem_cons_of_mem cu hm)
      rw [hout.other_color w hw2, hg1, reassign_color, if_neg hw1]
    · intro w hw
      refine hout.flags w ?_
      rw [hg1, reassign_assigned]
      by_cases hwc : w = cu
      · rw [if_pos hwc]
        have h2 : (g.user w).assigned = true := by
          rw [hwc]
          exact hI.masg sid cu hcu
        rw [hw] at h2
        exact h2.symm
      · rw [if_neg hwc]
        exact hw

end RelocLemmas

/-! ## Invariant preservation by the passes -/

section PassLemmas

variable {Pos : Type} {vis : Pos → Pos → Bool} {intf : Pos → Pos → Pos → Bool}

theorem p2color_inv {g : GState Pos} {sol : Sol} {sid uid : Nat} {c : Color}
    (hI : Inv vis intf g) (hS : SolOk (g, sol))
    (hvis : uid ∈ (g.sat sid).visible_users)
    (hcross : ∀ s2, s2 ≠ sid → uid ∉ (g.sat s2).assignments) :
    Inv vis intf (p2color intf sid uid (g, sol) c).1 ∧
    SolOk (p2color intf sid uid (g, sol) c) ∧
    (∀ s2, s2 ≠ sid → (p2color intf sid uid (g, sol) c).1.sat s2 = g.sat s2) ∧
    Frame g (p2color intf sid uid (g, sol) c).1 ∧
    (∀ w, w ≠ uid → (g.user w).assigned = false →
      ((p2color intf sid uid (g, sol) c).1.user w).assigned = false) := by
  have hsplit : p2color intf sid uid (g, sol) c =
      if canMakeRoomG intf g sid uid c then
        (assignG (List.foldl (relocStep sid) (g, sol) (makeRoomG intf g sid uid c)).1 sid uid c,
          dictUpd (List.foldl (relocStep sid) (g, sol) (makeRoomG intf g sid uid c)).2
            uid (sid, c))
      else (g, sol) := rfl
  by_cases hcmr : canMakeRoomG intf g sid uid c = true
  case neg =>
    rw [hsplit, if_neg hcmr]
    exact ⟨hI, hS, fun _ _ => rfl, frame_refl g, fun w _ hw => hw⟩
  case pos =>
    rw [hsplit, if_pos hcmr]
    have hfeas := canMakeRoom_true_iff.mp hcmr
    set ras := makeRoomG intf g sid uid c with hras
    set r := List.foldl (relocStep sid) (g, sol) ras with hr
    have hfacts : ∀ pr ∈ ras, pr.1 ∈ (g.sat sid).assignments ∧
        (g.user pr.1).color = some c ∧ pr.2 ≠ c ∧ SafeFor intf g sid pr.1 pr.2 := by
      intro pr hpr
      obtain ⟨hcs, hnc, hav⟩ := makeRoom_entry pr hpr
      obtain ⟨hmem, hcol, _⟩ := conflictsG_mem_iff.mp hcs
      obtain ⟨_, hno⟩ := availB_true_iff.mp hav
      refine ⟨hmem, hcol, hnc, ?_⟩
      intro v hv _ hcolv
      exact Or.inl (hno v hv hcolv)
    have hout := reloc_fold ras g sol hI hS (makeRoom_keys_nodup g sid uid c) hfacts
    obtain ⟨cu0, hcu0⟩ := List.exists_mem_of_ne_nil _ hfeas.1
    obtain ⟨c20, _, _, hav0⟩ := hfeas.2 cu0 hcu0
    have hlen_g : (g.sat sid).assignments.length < MAX_USERS_PER_SAT :=
      (availB_true_iff.mp hav0).1
    have hcap_r : (r.1.sat sid).assignments.length < MAX_USERS_PER_SAT :=
      lt_of_le_of_lt hout.len hlen_g
    have hvis_r : uid ∈ (r.1.sat sid).visible_users := by
      rw [hout.frame.svis sid]
      exact hvis
    have hcross_r : ∀ s2, s2 ≠ sid → uid ∉ (r.1.sat s2).assignments := by
      intro s2 hs2
      rw [hout.others s2 hs2]
      exact hcross s2 hs2
    have hsafe_r : SafeFor intf r.1 sid uid c := by
      intro v hv _ hcolv
      have hvg : v ∈ (g.sat sid).assignments := hout.memback v hv
      have hvnk : v ∉ ras.map (fun e => e.1) := by
        intro hvk
        obtain ⟨pr2, hpr2, _, hcol2⟩ := hout.reloc_color v hvk
        exact (makeRoom_entry pr2 hpr2).2.1
          (Option.some.inj (hcolv.symm.trans hcol2)).symm
      have hcolg : (g.user v).color = some c := by
        rw [← hout.other_color v hvnk]
        exact hcolv
      have hintf : intf (g.sat sid).vector (g.user uid).vector (g.user v).vector = false := by
        cases hb : intf (g.sat sid).vector (g.user uid).vector (g.user v).vector with
        | false => rfl
        | true =>
          exact absurd
            (makeRoom_covers hfeas.2 v (conflictsG_mem_iff.mpr ⟨hvg, hcolg, hb⟩)) hvnk
      rw [hout.frame.svec sid, hout.frame.uvec, hout.frame.uvec]
      exact Or.inl hintf
    refine ⟨assign_inv hout.inv hcap_r hvis_r hcross_r hsafe_r,
      solok_assign hout.solok, ?_, ?_, ?_⟩
    · intro s2 hs2
      rw [assignG_sat_apply, if_neg hs2]
      exact hout.others s2 hs2
    · exact frame_trans hout.frame (assignG_frame r.1 sid uid c)
    · intro w hwne hw
      rw [assignG_assigned, if_neg hwne]
      exact hout.flags w hw

theorem p2colorfold_inv {sid uid : Nat} :
    ∀ (cs : List Color) (p : GState Pos × Sol),
      Inv vis intf p.1 → SolOk p →
      uid ∈ (p.1.sat sid).visible_users →
      (∀ s2, s2 ≠ sid → uid ∉ (p.1.sat s2).assignments) →
      Inv vis intf (cs.foldl (p2color intf sid uid) p).1 ∧
      SolOk (cs.foldl (p2color intf sid uid) p) ∧
      (∀ s2, s2 ≠ sid → (cs.foldl (p2color intf sid uid) p).1.sat s2 = p.1.sat s2) ∧
      Frame p.1 (cs.foldl (p2color intf sid uid) p).1 ∧
      (∀ w, w ≠ uid → (p.1.user w).assigned = false →
        ((cs.foldl (p2color intf sid uid) p).1.user w).assigned = false) := by
  intro cs
  induction cs with
  | nil =>
    intro p hI hS _ _
    exact ⟨hI, hS, fun _ _ => rfl, frame_refl _, fun w _ hw => hw⟩
  | cons c rest ihc =>
    intro p hI hS hvis hcross
    rw [List.foldl_cons]
    obtain ⟨h1, h2, h3, h4, h5⟩ := p2color_inv (c := c) hI hS hvis hcross
    obtain ⟨k1, k2, k3, k4, k5⟩ := ihc (p2color intf sid uid p c) h1 h2
      (by rw [h4.svis]; exact hvis)
      (fun s2 hs2 => by rw [h3 s2 hs2]; exact hcross s2 hs2)
    refine ⟨k1, k2, ?_, frame_trans h4 k4, ?_⟩
    · intro s2 hs2
      rw [k3 s2 hs2, h3 s2 hs2]
    · intro w hwne hw
      exact k5 w hwne (h5 w hwne hw)

theorem p2step_inv {g : GState Pos} {t : Sol} {sid uid : Nat}
    (hI : Inv vis intf g) (hS : SolOk (g, t))
    (hvis : uid ∈ (g.sat sid).visible_users)
    (hcross : ∀ s2, s2 ≠ sid → uid ∉ (g.sat s2).assignments) :
    Inv vis intf (p2step intf sid (g, t) uid).1 ∧
    SolOk (p2step intf sid (g, t) uid) ∧
    (∀ s2, s2 ≠ sid → (p2step intf sid (g, t) uid).1.sat s2 = g.sat s2) ∧
    Frame g (p2step intf sid (g, t) uid).1 ∧
    (∀ w, w ≠ uid → (g.user w).assigned = false →
      ((p2step intf sid (g, t) uid).1.user w).assigned = false) := by
  unfold p2step
  exact p2colorfold_inv COLORS (g, t) hI hS hvis hcross

theorem p1step_inv {g : GState Pos} {t : Sol} {sid uid : Nat}
    (hI : Inv vis intf g) (hS : SolOk (g, t))
    (hvis : uid ∈ (g.sat sid).visible_users)
    (hcross : ∀ s2, s2 ≠ sid → uid ∉ (g.sat s2).assignments) :
    Inv vis intf (p1step intf sid (g, t) uid).1 ∧
    SolOk (p1step intf sid (g, t) uid) ∧
    Frame g (p1step intf sid (g, t) uid).1 ∧
    (∀ w, w ≠ uid → (g.user w).assigned = false →
      ((p1step intf sid (g, t) uid).1.user w).assigned = false) := by
  unfold p1step
  cases hf : COLORS.find? (fun c => availB intf g sid uid c) with
  | none => exact ⟨hI, hS, frame_refl _, fun w _ hw => hw⟩
  | some c =>
    have hav := List.find?_some hf
    obtain ⟨hcap, hno⟩ := availB_true_iff.mp hav
    have hsafe : SafeFor intf g sid uid c := fun v hv _ hcolv => Or.inl (hno v hv hcolv)
    refine ⟨assign_inv hI hcap hvis hcross hsafe, solok_assign hS,
      assignG_frame g sid uid c, ?_⟩
    intro w hwne hw
    rw [assignG_assigned, if_neg hwne]
    exact hw

theorem p1userfold_inv {sid : Nat} :
    ∀ (l : List Nat) (q : GState Pos × Sol),
      Inv vis intf q.1 → SolOk q →
      l.Nodup →
      (∀ w ∈ l, (q.1.user w).assigned = false ∧ w ∈ (q.1.sat sid).visible_users) →
      Inv vis intf (l.foldl (p1step intf sid) q).1 ∧
      SolOk (l.foldl (p1step intf sid) q) ∧
      Frame q.1 (l.foldl (p1step intf sid) q).1 := by
  intro l
  induction l with
  | nil =>
    intro q hI hS _ _
    exact ⟨hI, hS, frame_refl _⟩
  | cons u rest ihl =>
    intro q hI hS hnd hmem
    obtain ⟨g, sol⟩ := q
    rw [List.foldl_cons]
    have hnd2 := List.nodup_cons.mp hnd
    obtain ⟨hu_un, hu_vis⟩ := hmem u (List.mem_cons_self u rest)
    have hu_cross : ∀ s2, s2 ≠ sid → u ∉ (g.sat s2).assignments := by
      intro s2 _ hmem2
      have h2 := hI.masg s2 u hmem2
      rw [hu_un] at h2
      exact Bool.false_ne_true h2
    obtain ⟨h1, h2, h3, h4⟩ := p1step_inv (g := g) (t := sol) hI hS hu_vis hu_cross
    obtain ⟨k1, k2, k3⟩ := ihl (p1step intf sid (g, sol) u) h1 h2 hnd2.2
      (fun w hw => ⟨h4 w (fun he => hnd2.1 (he ▸ hw)) (hmem w (List.mem_cons_of_mem u hw)).1,
        by rw [h3.svis]; exact (hmem w (List.mem_cons_of_mem u hw)).2⟩)
    exact ⟨k1, k2, frame_trans h3 k3⟩

theorem p2userfold_inv {sid : Nat} :
    ∀ (l : List Nat) (q : GState Pos × Sol),
      Inv vis intf q.1 → SolOk q →
      l.Nodup →
      (∀ w ∈ l, (q.1.user w).assigned = false ∧ w ∈ (q.1.sat sid).visible_users) →
      Inv vis intf (l.foldl (p2step intf sid) q).1 ∧
      SolOk (l.foldl (p2step intf sid) q) ∧
      Frame q.1 (l.foldl (p2step intf sid) q).1 := by
  intro l
  induction l with
  | nil =>
    intro q hI hS _ _
    exact ⟨hI, hS, frame_refl _⟩
  | cons u rest ihl =>
    intro q hI hS hnd hmem
    obtain ⟨g, sol⟩ := q
    rw [List.foldl_cons]
    have hnd2 := List.nodup_cons.mp hnd
    obtain ⟨hu_un, hu_vis⟩ := hmem u (List.mem_cons_self u rest)
    have hu_cross : ∀ s2, s2 ≠ sid → u ∉ (g.sat s2).assignments := by
      intro s2 _ hmem2
      have h2 := hI.masg s2 u hmem2
      rw [hu_un] at h2
      exact Bool.false_ne_true h2
    obtain ⟨h1, h2, h3, h4, h5⟩ := p2step_inv (g := g) (t := sol) hI hS hu_vis hu_cross
    obtain ⟨k1, k2, k3⟩ := ihl (p2step intf sid (g, sol) u) h1 h2 hnd2.2
      (fun w hw => ⟨h5 w (fun he => hnd2.1 (he ▸ hw)) (hmem w (List.mem_cons_of_mem u hw)).1,
        by rw [h4.svis]; exact (hmem w (List.mem_cons_of_mem u hw)).2⟩)
    exact ⟨k1, k2, frame_trans h4 k3⟩

theorem availableUsers_facts {g : GState Pos} {s : Nat} (hI : Inv vis intf g) :
    (availableUsers g s).Nodup ∧
    ∀ w ∈ availableUsers g s,
      (g.user w).assigned = false ∧ w ∈ (g.sat s).visible_users := by
  constructor
  · exact (hI.vnodup s).filter _
  · intro w hw
    unfold availableUsers at hw
    rw [List.mem_filter] at hw
    refine ⟨?_, hw.1⟩
    have := hw.2
    rw [Bool.not_eq_true'] at this
    exact this

theorem p1sat_inv {p : GState Pos × Sol} {s : Nat}
    (hI : Inv vis intf p.1) (hS : SolOk p) :
    Inv vis intf (p1sat intf p s).1 ∧ SolOk (p1sat intf p s) ∧
    Frame p.1 (p1sat intf p s).1 := by
  obtain ⟨hnd, hmem⟩ := availableUsers_facts (s := s) hI
  exact p1userfold_inv (availableUsers p.1 s) p hI hS hnd hmem

theorem p2sat_inv {p : GState Pos × Sol} {s : Nat}
    (hI : Inv vis intf p.1) (hS : SolOk p) :
    Inv vis intf (p2sat intf p s).1 ∧ SolOk (p2sat intf p s) ∧
    Frame p.1 (p2sat intf p s).1 := by
  obtain ⟨hnd, hmem⟩ := availableUsers_facts (s := s) hI
  exact p2userfold_inv (availableUsers p.1 s) p hI hS hnd hmem

theorem p1satfold_inv :
    ∀ (sids : List Nat) (p : GState Pos × Sol),
      Inv vis intf p.1 → SolOk p →
      Inv vis intf ((sids.foldl (p1sat intf) p)).1 ∧
      SolOk (sids.foldl (p1sat intf) p) ∧
      Frame p.1 (sids.foldl (p1sat intf) p).1 := by
  intro sids
  induction sids with
  | nil =>
    intro p hI hS
    exact ⟨hI, hS, frame_refl _⟩
  | cons sid rest ihs =>
    intro p hI hS
    rw [List.foldl_cons]
    obtain ⟨h1, h2, h3⟩ := p1sat_inv (s := sid) hI hS
    obtain ⟨k1, k2, k3⟩ := ihs (p1sat intf p sid) h1 h2
    exact ⟨k1, k2, frame_trans h3 k3⟩

theorem p2satfold_inv :
    ∀ (sids : List Nat) (p : GState Pos × Sol),
      Inv vis intf p.1 → SolOk p →
      Inv vis intf ((sids.foldl (p2sat intf) p)).1 ∧
      SolOk (sids.foldl (p2sat intf) p) ∧
      Frame p.1 (sids.foldl (p2sat intf) p).1 := by
  intro sids
  induction sids with
  | nil =>
    intro p hI hS
    exact ⟨hI, hS, frame_refl _⟩
  | cons sid rest ihs =>
    intro p hI hS
    rw [List.foldl_cons]
    obtain ⟨h1, h2, h3⟩ := p2sat_inv (s := sid) hI hS
    obtain ⟨k1, k2, k3⟩ := ihs (p2sat intf p sid) h1 h2
    exact ⟨k1, k2, frame_trans h3 k3⟩

end PassLemmas

/-! ## Registration establishes the invariant on a fresh run -/

section InitLemmas

variable {Pos : Type} {vis : Pos → Pos → Bool} {intf : Pos → Pos → Pos → Bool}

theorem insertKey_nodup {ks : List Nat} {k : Nat} (h : ks.Nodup) :
    (insertKey ks k).Nodup := by
  unfold insertKey
  by_cases hm : k ∈ ks
  · rw [if_pos hm]
    exact h
  · rw [if_neg hm]
    rw [List.nodup_append]
    refine ⟨h, List.nodup_singleton k, fun a ha hb => ?_⟩
    rw [List.mem_singleton] at hb
    exact hm (hb ▸ ha)

theorem initUsers_sat (users : List (Nat × Pos)) :
    ∀ g : GState Pos, (initUsers users g).sat = g.sat ∧
      (initUsers users g).satKeys = g.satKeys := by
  induction users with
  | nil => exact fun g => ⟨rfl, rfl⟩
  | cons pr rest ih =>
    intro g
    have hstep : initUsers (pr :: rest) g = initUsers rest
        { g with
          userKeys := insertKey g.userKeys pr.1
          user := Function.update g.user pr.1
            { vector := pr.2, assigned := false, color := none } } := rfl
    rw [hstep]
    exact ih _

theorem initUsers_ukeys_nodup (users : List (Nat × Pos)) :
    ∀ g : GState Pos, g.userKeys.Nodup → (initUsers users g).userKeys.Nodup := by
  induction users with
  | nil => exact fun g h => h
  | cons pr rest ih =>
    intro g h
    have hstep : initUsers (pr :: rest) g = initUsers rest
        { g with
          userKeys := insertKey g.userKeys pr.1
          user := Function.update g.user pr.1
            { vector := pr.2, assigned := false, color := none } } := rfl
    rw [hstep]
    exact ih _ (insertKey_nodup h)

theorem initSats_user (sats : List (Nat × Pos)) :
    ∀ g : GState Pos, (initSats vis sats g).user = g.user ∧
      (initSats vis sats g).userKeys = g.userKeys := by
  induction sats with
  | nil => exact fun g => ⟨rfl, rfl⟩
  | cons pr rest ih =>
    intro g
    have hstep : initSats vis (pr :: rest) g = initSats vis rest
        { g with
          satKeys := insertKey g.satKeys pr.1
          sat := Function.update g.sat pr.1
            { vector := pr.2
              assignments := []
              visible_users := g.userKeys.filter (fun uid => vis pr.2 (g.user uid).vector) } } :=
      rfl
    rw [hstep]
    exact ih _

theorem initSats_core (sats : List (Nat × Pos)) :
    ∀ g : GState Pos,
      g.userKeys.Nodup →
      (∀ sid, (g.sat sid).assignments = []) →
      (∀ sid, (g.sat sid).visible_users.Nodup ∧
        ∀ u ∈ (g.sat sid).visible_users, u ∈ g.userKeys ∧
          vis (g.sat sid).vector (g.user u).vector = true) →
      (∀ sid, ((initSats vis sats g).sat sid).assignments = []) ∧
      (∀ sid, ((initSats vis sats g).sat sid).visible_users.Nodup ∧
        ∀ u ∈ ((initSats vis sats g).sat sid).visible_users,
          u ∈ (initSats vis sats g).userKeys ∧
          vis ((initSats vis sats g).sat sid).vector
            ((initSats vis sats g).user u).vector = true) := by
  induction sats with
  | nil => exact fun g _ h2 h3 => ⟨h2, h3⟩
  | cons pr rest ih =>
    intro g h1 h2 h3
    have hstep : initSats vis (pr :: rest) g = initSats vis rest
        { g with
          satKeys := insertKey g.satKeys pr.1
          sat := Function.update g.sat pr.1
            { vector := pr.2
              assignments := []
              visible_users := g.userKeys.filter (fun uid => vis pr.2 (g.user uid).vector) } } :=
      rfl
    rw [hstep]
    refine ih _ h1 ?_ ?_
    · intro sid
      show (Function.update g.sat pr.1
        { vector := pr.2
          assignments := []
          visible_users := g.userKeys.filter (fun uid => vis pr.2 (g.user uid).vector) }
        sid).assignments = []
      rw [Function.update_apply]
      by_cases h : sid = pr.1
      · rw [if_pos h]
      · rw [if_neg h]
        exact h2 sid
    · intro sid
      show (Function.update g.sat pr.1
          { vector := pr.2
            assignments := []
            visible_users := g.userKeys.filter (fun uid => vis pr.2 (g.user uid).vector) }
          sid).visible_users.Nodup ∧
        ∀ u ∈ (Function.update g.sat pr.1
          { vector := pr.2
            assignments := []
            visible_users := g.userKeys.filter (fun uid => vis pr.2 (g.user uid).vector) }
          sid).visible_users, u ∈ g.userKeys ∧
          vis (Function.update g.sat pr.1
            { vector := pr.2
              assignments := []
              visible_users := g.userKeys.filter (fun uid => vis pr.2 (g.user uid).vector) }
            sid).vector (g.user u).vector = true
      rw [Function.update_apply]
      by_cases h : sid = pr.1
      · rw [if_pos h]
        refine ⟨h1.filter _, fun u hu => ?_⟩
        rw [List.mem_filter] at hu
        exact ⟨hu.1, hu.2⟩
      · rw [if_neg h]
        exact h3 sid

theorem initState_inv [Inhabited Pos] (users sats : List (Nat × Pos)) :
    Inv vis intf (initState vis users sats) ∧
    (∀ sid, ((initState vis users sats).sat sid).assignments = []) := by
  have hsat1 := (initUsers_sat users (emptyG Pos)).1
  have hk1 : (initUsers users (emptyG Pos)).userKeys.Nodup :=
    initUsers_ukeys_nodup users (emptyG Pos) List.nodup_nil
  have h2 : ∀ sid, ((initUsers users (emptyG Pos)).sat sid).assignments = [] := by
    intro sid
    rw [hsat1]
    rfl
  have h3 : ∀ sid, ((initUsers users (emptyG Pos)).sat sid).visible_users.Nodup ∧
      ∀ u ∈ ((initUsers users (emptyG Pos)).sat sid).visible_users,
        u ∈ (initUsers users (emptyG Pos)).userKeys ∧
        vis ((initUsers users (emptyG Pos)).sat sid).vector
          ((initUsers users (emptyG Pos)).user u).vector = true := by
    intro sid
    rw [hsat1]
    exact ⟨List.nodup_nil, fun u hu => absurd hu (List.not_mem_nil u)⟩
  obtain ⟨hasg, hvisf⟩ := initSats_core sats (initUsers users (emptyG Pos)) hk1 h2 h3
  have hukeys : (initSats vis sats (initUsers users (emptyG Pos))).userKeys =
      (initUsers users (emptyG Pos)).userKeys :=
    (initSats_user sats (initUsers users (emptyG Pos))).2
  unfold initState
  refine ⟨⟨?_, ?_, ?_, ?_, ?_, ?_, ?_, ?_, ?_⟩, hasg⟩
  · show (initSats vis sats (initUsers users (emptyG Pos))).userKeys.Nodup
    rw [hukeys]
    exact hk1
  · exact fun sid => (hvisf sid).1
  · intro sid u hu
    have := ((hvisf sid).2 u hu).1
    show u ∈ (initSats vis sats (initUsers users (emptyG Pos))).userKeys
    rw [hukeys]
    rw [hukeys] at this
    exact this
  · exact fun sid u hu => ((hvisf sid).2 u hu).2
  · intro sid
    rw [hasg sid]
    exact Nat.zero_le _
  · intro sid u hu
    rw [hasg sid] at hu
    exact absurd hu (List.not_mem_nil u)
  · intro sid u hu
    rw [hasg sid] at hu
    exact absurd hu (List.not_mem_nil u)
  · intro s1 s2 _ u hu
    rw [hasg s1] at hu
    exact absurd hu (List.not_mem_nil u)
  · intro sid
    rw [hasg sid]
    exact List.Pairwise.nil

theorem solok_nil (g : GState Pos) : SolOk (g, ([] : Sol)) :=
  ⟨List.nodup_nil, fun e he => absurd he (List.not_mem_nil e),
    fun e he => absurd he (List.not_mem_nil e)⟩

theorem pass1Full_inv [Inhabited Pos] (users sats : List (Nat × Pos)) :
    Inv vis intf (pass1Full vis intf users sats).1 ∧
    SolOk (pass1Full vis intf users sats) := by
  unfold pass1Full
  obtain ⟨hI, _⟩ := (initState_inv users sats :
    Inv vis intf (initState vis users sats) ∧
    ∀ u, ((initState vis users sats).sat u).assignments = [])
  obtain ⟨k1, k2, _⟩ := p1satfold_inv (initState vis users sats).satKeys
    (initState vis users sats, []) hI (solok_nil _)
  exact ⟨k1, k2⟩

theorem pass2Full_inv [Inhabited Pos] (users sats : List (Nat × Pos)) :
    Inv vis intf (pass2Full vis intf users sats).1 ∧
    SolOk (pass2Full vis intf users sats) := by
  unfold pass2Full
  obtain ⟨hI, hS⟩ := (pass1Full_inv users sats :
    Inv vis intf (pass1Full vis intf users sats).1 ∧
    SolOk (pass1Full vis intf users sats))
  obtain ⟨k1, k2, _⟩ := p2satfold_inv (pass1Full vis intf users sats).1.satKeys
    (pass1Full vis intf users sats) hI hS
  exact ⟨k1, k2⟩

theorem solveFresh_eq_pass2Full [Inhabited Pos] (users sats : List (Nat × Pos)) :
    solveFresh vis intf users sats =
      ((pass2Full vis intf users sats).2, (pass2Full vis intf users sats).1) := rfl

end InitLemmas

/-! ## Capacity at intermediate points -/

section CapLemmas

variable {Pos : Type} {vis : Pos → Pos → Bool} {intf : Pos → Pos → Pos → Bool}

theorem solcount_le {g : GState Pos} {sol : Sol}
    (hI : Inv vis intf g) (hS : SolOk (g, sol)) (sid : Nat) :
    sol.countP (fun e => decide (e.2.1 = sid)) ≤ MAX_USERS_PER_SAT := by
  rw [List.countP_eq_length_filter]
  have hkeys_nodup :
      ((sol.filter (fun e => decide (e.2.1 = sid))).map (fun e => e.1)).Nodup :=
    List.Nodup.sublist ((List.filter_sublist sol).map (fun e => e.1)) hS.keys_nodup
  have hsub : ∀ x ∈ (sol.filter (fun e => decide (e.2.1 = sid))).map (fun e => e.1),
      x ∈ (g.sat sid).assignments := by
    intro x hx
    rw [List.mem_map] at hx
    obtain ⟨e, he, hxe⟩ := hx
    rw [List.mem_filter] at he
    have hm := hS.mem e he.1
    have he2 : e.2.1 = sid := by simpa using he.2
    rw [he2] at hm
    exact hxe ▸ hm
  calc (sol.filter (fun e => decide (e.2.1 = sid))).length
      = ((sol.filter (fun e => decide (e.2.1 = sid))).map (fun e => e.1)).length := by
        rw [List.length_map]
    _ ≤ (g.sat sid).assignments.length := nodup_length_le_of_subset hkeys_nodup hsub
    _ ≤ MAX_USERS_PER_SAT := hI.cap sid

theorem pass1Upto_cap [Inhabited Pos] (users sats : List (Nat × Pos)) (k m sid : Nat) :
    ((pass1Upto vis intf users sats k m).1.sat sid).assignments.length ≤
      MAX_USERS_PER_SAT := by
  have hsplit : pass1Upto vis intf users sats k m =
      (match (initState vis users sats).satKeys.drop k with
        | [] => ((initState vis users sats).satKeys.take k).foldl (p1sat intf)
            (initState vis users sats, [])
        | sid0 :: _ =>
          ((availableUsers (((initState vis users sats).satKeys.take k).foldl (p1sat intf)
              (initState vis users sats, [])).1 sid0).take m).foldl (p1step intf sid0)
            (((initState vis users sats).satKeys.take k).foldl (p1sat intf)
              (initState vis users sats, []))) := rfl
  obtain ⟨hI0, _⟩ := (initState_inv users sats :
    Inv vis intf (initState vis users sats) ∧
    ∀ u, ((initState vis users sats).sat u).assignments = [])
  obtain ⟨hI, hS, _⟩ := p1satfold_inv ((initState vis users sats).satKeys.take k)
    (initState vis users sats, []) hI0 (solok_nil _)
  rw [hsplit]
  cases hdrop : (initState vis users sats).satKeys.drop k with
  | nil => exact hI.cap sid
  | cons sid0 rest =>
    obtain ⟨hnd, hmem⟩ := availableUsers_facts (s := sid0) hI
    obtain ⟨k1, _, _⟩ := p1userfold_inv
      ((availableUsers (((initState vis users sats).satKeys.take k).foldl (p1sat intf)
        (initState vis users sats, [])).1 sid0).take m)
      (((initState vis users sats).satKeys.take k).foldl (p1sat intf)
        (initState vis users sats, []))
      hI hS
      (List.Nodup.sublist (List.take_sublist m _) hnd)
      (fun w hw => hmem w (List.take_subset m _ hw))
    exact k1.cap sid

theorem pass2Upto_cap [Inhabited Pos] (users sats : List (Nat × Pos)) (k m sid : Nat) :
    ((pass2Upto vis intf users sats k m).1.sat sid).assignments.length ≤
      MAX_USERS_PER_SAT := by
  have hsplit : pass2Upto vis intf users sats k m =
      (match (pass1Full vis intf users sats).1.satKeys.drop k with
        | [] => ((pass1Full vis intf users sats).1.satKeys.take k).foldl (p2sat intf)
            (pass1Full vis intf users sats)
        | sid0 :: _ =>
          ((availableUsers (((pass1Full vis intf users sats).1.satKeys.take k).foldl
              (p2sat intf) (pass1Full vis intf users sats)).1 sid0).take m).foldl
            (p2step intf sid0)
            (((pass1Full vis intf users sats).1.satKeys.take k).foldl (p2sat intf)
              (pass1Full vis intf users sats))) := rfl
  obtain ⟨hI0, hS0⟩ := (pass1Full_inv users sats :
    Inv vis intf (pass1Full vis intf users sats).1 ∧
    SolOk (pass1Full vis intf users sats))
  obtain ⟨hI, hS, _⟩ := p2satfold_inv ((pass1Full vis intf users sats).1.satKeys.take k)
    (pass1Full vis intf users sats) hI0 hS0
  rw [hsplit]
  cases hdrop : (pass1Full vis intf users sats).1.satKeys.drop k with
  | nil => exact hI.cap sid
  | cons sid0 rest =>
    obtain ⟨hnd, hmem⟩ := availableUsers_facts (s := sid0) hI
    obtain ⟨k1, _, _⟩ := p2userfold_inv
      ((availableUsers (((pass1Full vis intf users sats).1.satKeys.take k).foldl
        (p2sat intf) (pass1Full vis intf users sats)).1 sid0).take m)
      (((pass1Full vis intf users sats).1.satKeys.take k).foldl (p2sat intf)
        (pass1Full vis intf users sats))
      hI hS
      (List.Nodup.sublist (List.take_sublist m _) hnd)
      (fun w hw => hmem w (List.take_subset m _ hw))
    exact k1.cap sid

end CapLemmas

/-- C4: on every input and at every point of either pass, each satellite's
assignments list stays within `MAX_USERS_PER_SAT = 32`, and in the mapping
returned by `solve` at most 32 users name any one satellite. -/
theorem C4_capacity :
    ∀ (Pos : Type) [Inhabited Pos] (vis : Pos → Pos → Bool)
      (intf : Pos → Pos → Pos → Bool) (users sats : List (Nat × Pos)),
      (∀ sid, (solveFresh vis intf users sats).1.countP
        (fun e => decide (e.2.1 = sid)) ≤ MAX_USERS_PER_SAT) ∧
      (∀ sid, ((solveFresh vis intf users sats).2.sat sid).assignments.length ≤
        MAX_USERS_PER_SAT) ∧
      (∀ k m sid, ((pass1Upto vis intf users sats k m).1.sat sid).assignments.length ≤
        MAX_USERS_PER_SAT) ∧
      (∀ k m sid, ((pass2Upto vis intf users sats k m).1.sat sid).assignments.length ≤
        MAX_USERS_PER_SAT) := by
  intro Pos _ vis intf users sats
  obtain ⟨hI, hS⟩ := (pass2Full_inv users sats :
    Inv vis intf (pass2Full vis intf users sats).1 ∧
    SolOk (pass2Full vis intf users sats))
  rcases hpf : pass2Full vis intf users sats with ⟨gf, solf⟩
  rw [hpf] at hI hS
  have hsol : (solveFresh vis intf users sats).1 = solf := by
    rw [solveFresh_eq_pass2Full, hpf]
  have hg : (solveFresh vis intf users sats).2 = gf := by
    rw [solveFresh_eq_pass2Full, hpf]
  refine ⟨?_, ?_, fun k m sid => pass1Upto_cap users sats k m sid,
    fun k m sid => pass2Upto_cap users sats k m sid⟩
  · intro sid
    rw [hsol]
    exact solcount_le hI hS sid
  · intro sid
    rw [hg]
    exact hI.cap sid

/-- C5: every user in the mapping returned by `solve` is assigned to a
satellite whose visibility predicate holds on that user's position, and
each user key appears with exactly one satellite-channel pair (the
returned dict's keys are unique). -/
theorem C5_visibility :
    ∀ (Pos : Type) [Inhabited Pos] (vis : Pos → Pos → Bool)
      (intf : Pos → Pos → Pos → Bool) (users sats : List (Nat × Pos)),
      (∀ u s c, (u, s, c) ∈ (solveFresh vis intf users sats).1 →
        vis ((solveFresh vis intf users sats).2.sat s).vector
          ((solveFresh vis intf users sats).2.user u).vector = true) ∧
      ((solveFresh vis intf users sats).1.map (fun e => e.1)).Nodup := by
  intro Pos _ vis intf users sats
  obtain ⟨hI, hS⟩ := (pass2Full_inv users sats :
    Inv vis intf (pass2Full vis intf users sats).1 ∧
    SolOk (pass2Full vis intf users sats))
  rcases hpf : pass2Full vis intf users sats with ⟨gf, solf⟩
  rw [hpf] at hI hS
  have hsol : (solveFresh vis intf users sats).1 = solf := by
    rw [solveFresh_eq_pass2Full, hpf]
  have hg : (solveFresh vis intf users sats).2 = gf := by
    rw [solveFresh_eq_pass2Full, hpf]
  constructor
  · intro u s c hm
    rw [hsol] at hm
    rw [hg]
    have h1 : u ∈ (gf.sat s).assignments := hS.mem (u, s, c) hm
    exact hI.vvis s u (hI.mvis s u h1)
  · rw [hsol]
    exact hS.keys_nodup

/-- Witness for C5 on a two-user, one-satellite instance over the bearing
model: both solution entries point at a satellite that sees the user. -/
theorem C5_witness :
    ((1, 10, Color.A) ∈ (solveFresh alwaysVisible neverIntf [(1, 0), (2, 0)] [(10, 0)]).1) ∧
    alwaysVisible ((solveFresh alwaysVisible neverIntf [(1, 0), (2, 0)] [(10, 0)]).2.sat 10).vector
      ((solveFresh alwaysVisible neverIntf [(1, 0), (2, 0)] [(10, 0)]).2.user 1).vector = true := by
  refine ⟨by decide, ?_⟩
  exact (C5_visibility Int alwaysVisible neverIntf [(1, 0), (2, 0)] [(10, 0)]).1
    1 10 Color.A (by decide)

/-- C3: in the mapping returned by `solve`, no two distinct users assigned
to the same satellite and channel interfere (for an interference predicate
that is symmetric in its two user arguments, as the real geometric one
is); in particular this survives Pass 2's relocations. -/
theorem C3_no_interference :
    ∀ (Pos : Type) [Inhabited Pos] (vis : Pos → Pos → Bool)
      (intf : Pos → Pos → Pos → Bool) (users sats : List (Nat × Pos)),
      (∀ s a b : Pos, intf s a b = intf s b a) →
      ∀ u1 u2 s c,
        (u1, s, c) ∈ (solveFresh vis intf users sats).1 →
        (u2, s, c) ∈ (solveFresh vis intf users sats).1 →
        u1 ≠ u2 →
        intf ((solveFresh vis intf users sats).2.sat s).vector
          ((solveFresh vis intf users sats).2.user u1).vector
          ((solveFresh vis intf users sats).2.user u2).vector = false := by
  intro Pos _ vis intf users sats hsym u1 u2 s c hm1 hm2 hne
  obtain ⟨hI, hS⟩ := (pass2Full_inv users sats :
    Inv vis intf (pass2Full vis intf users sats).1 ∧
    SolOk (pass2Full vis intf users sats))
  rcases hpf : pass2Full vis intf users sats with ⟨gf, solf⟩
  rw [hpf] at hI hS
  have hsol : (solveFresh vis intf users sats).1 = solf := by
    rw [solveFresh_eq_pass2Full, hpf]
  have hg : (solveFresh vis intf users sats).2 = gf := by
    rw [solveFresh_eq_pass2Full, hpf]
  rw [hsol] at hm1 hm2
  rw [hg]
  have ha1 : u1 ∈ (gf.sat s).assignments := hS.mem (u1, s, c) hm1
  have ha2 : u2 ∈ (gf.sat s).assignments := hS.mem (u2, s, c) hm2
  have hcol : (gf.user u1).color = (gf.user u2).color := by
    rw [hS.colorOk (u1, s, c) hm1, hS.colorOk (u2, s, c) hm2]
  rcases inv_pair_extract hI ha1 ha2 hne hcol with h | h
  · rw [hsym ((gf.sat s).vector) ((gf.user u1).vector) ((gf.user u2).vector)]
    exact h
  · exact h

/-- Witness for C3 on a two-user, one-satellite instance with symmetric
(constantly false) interference: the two distinct users sharing channel A
do not interfere. -/
theorem C3_witness :
    ((1, 10, Color.A) ∈ (solveFresh alwaysVisible neverIntf [(1, 0), (2, 0)] [(10, 0)]).1) ∧
    ((2, 10, Color.A) ∈ (solveFresh alwaysVisible neverIntf [(1, 0), (2, 0)] [(10, 0)]).1) ∧
    neverIntf ((solveFresh alwaysVisible neverIntf [(1, 0), (2, 0)] [(10, 0)]).2.sat 10).vector
      ((solveFresh alwaysVisible neverIntf [(1, 0), (2, 0)] [(10, 0)]).2.user 1).vector
      ((solveFresh alwaysVisible neverIntf [(1, 0), (2, 0)] [(10, 0)]).2.user 2).vector = false := by
  refine ⟨by decide, by decide, ?_⟩
  exact C3_no_interference Int alwaysVisible neverIntf [(1, 0), (2, 0)] [(10, 0)]
    (fun _ _ _ => rfl) 1 2 10 Color.A (by decide) (by decide) (by decide)

/-! ## Confinement of the passes to the registered keys -/

section KeepLemmas

variable {Pos : Type} {vis : Pos → Pos → Bool} {intf : Pos → Pos → Pos → Bool}

theorem keeps_refl {g2 : GState Pos}
    (hasg : ∀ s, (g2.sat s).assignments = []) : Keeps g2 g2 := by
  refine ⟨rfl, rfl, fun _ _ => rfl, fun _ _ => rfl, fun _ => rfl, ?_⟩
  intro s u hu
  rw [hasg s] at hu
  exact absurd hu (List.not_mem_nil u)

theorem keeps_assign {g2 g : GState Pos} {sid uid : Nat} {c : Color}
    (hK : Keeps g2 g) (hu : uid ∈ g2.userKeys) (hs : sid ∈ g2.satKeys) :
    Keeps g2 (assignG g sid uid c) := by
  obtain ⟨h1, h2, h3, h4, h5, h6⟩ := hK
  refine ⟨h1, h2, ?_, ?_, ?_, ?_⟩
  · intro u hnot
    rw [assignG_user_apply, if_neg (fun (he : u = uid) => hnot (he.symm ▸ hu))]
    exact h3 u hnot
  · intro s hnot
    rw [assignG_sat_apply, if_neg (fun (he : s = sid) => hnot (he.symm ▸ hs))]
    exact h4 s hnot
  · intro s
    rw [assignG_svis]
    exact h5 s
  · intro s u hmem
    rw [assignG_asg] at hmem
    by_cases hss : s = sid
    · rw [if_pos hss] at hmem
      rcases List.mem_append.mp hmem with hm | hm
      · exact h6 sid u hm
      · rw [List.mem_singleton] at hm
        rw [hm]
        exact hu
    · rw [if_neg hss] at hmem
      exact h6 s u hmem

theorem keeps_unassign {g2 g : GState Pos} {sid uid : Nat}
    (hK : Keeps g2 g) (hs : sid ∈ g2.satKeys) :
    Keeps g2 (unassignG g sid uid) := by
  obtain ⟨h1, h2, h3, h4, h5, h6⟩ := hK
  refine ⟨h1, h2, fun u hnot => h3 u hnot, ?_, ?_, ?_⟩
  · intro s hnot
    rw [unassignG_sat_apply, if_neg (fun (he : s = sid) => hnot (he.symm ▸ hs))]
    exact h4 s hnot
  · intro s
    rw [unassignG_svis]
    exact h5 s
  · intro s u hmem
    rw [unassignG_asg] at hmem
    by_cases hss : s = sid
    · rw [if_pos hss] at hmem
      exact h6 sid u (pyRemove_subset hmem)
    · rw [if_neg hss] at hmem
      exact h6 s u hmem

theorem keeps_reassign {g2 g : GState Pos} {sid uid : Nat} {c : Color}
    (hK : Keeps g2 g) (hu : uid ∈ g2.userKeys) (hs : sid ∈ g2.satKeys) :
    Keeps g2 (reassignG g sid uid c) :=
  keeps_assign (keeps_unassign hK hs) hu hs

theorem keeps_p1step {g2 : GState Pos} {sid : Nat} {p : GState Pos × Sol} {uid : Nat}
    (hK : Keeps g2 p.1) (hu : uid ∈ g2.userKeys) (hs : sid ∈ g2.satKeys) :
    Keeps g2 (p1step intf sid p uid).1 := by
  unfold p1step
  cases COLORS.find? (fun c => availB intf p.1 sid uid c) with
  | none => exact hK
  | some c => exact keeps_assign hK hu hs

theorem keeps_p2color {g2 g : GState Pos} {sol : Sol} {sid uid : Nat} {c : Color}
    (hK : Keeps g2 g) (hu : uid ∈ g2.userKeys) (hs : sid ∈ g2.satKeys) :
    Keeps g2 (p2color intf sid uid (g, sol) c).1 := by
  have hsplit : p2color intf sid uid (g, sol) c =
      if canMakeRoomG intf g sid uid c then
        (assignG (List.foldl (relocStep sid) (g, sol) (makeRoomG intf g sid uid c)).1 sid uid c,
          dictUpd (List.foldl (relocStep sid) (g, sol) (makeRoomG intf g sid uid c)).2
            uid (sid, c))
      else (g, sol) := rfl
  by_cases hcmr : canMakeRoomG intf g sid uid c = true
  case neg =>
    rw [hsplit, if_neg hcmr]
    exact hK
  case pos =>
    rw [hsplit, if_pos hcmr]
    have hras : ∀ pr ∈ makeRoomG intf g sid uid c, pr.1 ∈ g2.userKeys := by
      intro pr hpr
      obtain ⟨hcs, _, _⟩ := makeRoom_entry pr hpr
      exact hK.amem sid pr.1 (conflictsG_mem_iff.mp hcs).1
    have hfold : ∀ (ras : List (Nat × Color)) (r : GState Pos × Sol),
        Keeps g2 r.1 → (∀ pr ∈ ras, pr.1 ∈ g2.userKeys) →
        Keeps g2 (List.foldl (relocStep sid) r ras).1 := by
      intro ras
      induction ras with
      | nil => exact fun r h _ => h
      | cons pr rest ih =>
        intro r h hmem
        rw [List.foldl_cons]
        exact ih (relocStep sid r pr)
          (keeps_reassign h (hmem pr (List.mem_cons_self pr rest)) hs)
          (fun w hw => hmem w (List.mem_cons_of_mem pr hw))
    exact keeps_assign (hfold (makeRoomG intf g sid uid c) (g, sol) hK hras) hu hs

theorem keeps_p2step {g2 : GState Pos} {sid : Nat} {p : GState Pos × Sol} {uid : Nat}
    (hK : Keeps g2 p.1) (hu : uid ∈ g2.userKeys) (hs : sid ∈ g2.satKeys) :
    Keeps g2 (p2step intf sid p uid).1 := by
  unfold p2step
  have hfold : ∀ (cs : List Color) (q : GState Pos × Sol), Keeps g2 q.1 →
      Keeps g2 (cs.foldl (p2color intf sid uid) q).1 := by
    intro cs
    induction cs with
    | nil => exact fun q h => h
    | cons c rest ih =>
      intro q h
      obtain ⟨g, sol⟩ := q
      rw [List.foldl_cons]
      exact ih (p2color intf sid uid (g, sol) c) (keeps_p2color h hu hs)
  exact hfold COLORS p hK

theorem keeps_p1sat {g2 : GState Pos} {p : GState Pos × Sol} {sid : Nat}
    (hK : Keeps g2 p.1) (hs : sid ∈ g2.satKeys)
    (hvk : ∀ s u, u ∈ (g2.sat s).visible_users → u ∈ g2.userKeys) :
    Keeps g2 (p1sat intf p sid).1 := by
  unfold p1sat
  have hfold : ∀ (us : List Nat) (q : GState Pos × Sol), Keeps g2 q.1 →
      (∀ u ∈ us, u ∈ g2.userKeys) →
      Keeps g2 (us.foldl (p1step intf sid) q).1 := by
    intro us
    induction us with
    | nil => exact fun q h _ => h
    | cons u rest ih =>
      intro q h hmem
      rw [List.foldl_cons]
      exact ih (p1step intf sid q u)
        (keeps_p1step h (hmem u (List.mem_cons_self u rest)) hs)
        (fun w hw => hmem w (List.mem_cons_of_mem u hw))
  refine hfold (availableUsers p.1 sid) p hK ?_
  intro u hu
  have hv : u ∈ (p.1.sat sid).visible_users := (List.mem_filter.mp hu).1
  rw [hK.svis sid] at hv
  exact hvk sid u hv

theorem keeps_p2sat {g2 : GState Pos} {p : GState Pos × Sol} {sid : Nat}
    (hK : Keeps g2 p.1) (hs : sid ∈ g2.satKeys)
    (hvk : ∀ s u, u ∈ (g2.sat s).visible_users → u ∈ g2.userKeys) :
    Keeps g2 (p2sat intf p sid).1 := by
  unfold p2sat
  have hfold : ∀ (us : List Nat) (q : GState Pos × Sol), Keeps g2 q.1 →
      (∀ u ∈ us, u ∈ g2.userKeys) →
      Keeps g2 (us.foldl (p2step intf sid) q).1 := by
    intro us
    induction us with
    | nil => exact fun q h _ => h
    | cons u rest ih =>
      intro q h hmem
      rw [List.foldl_cons]
      exact ih (p2step intf sid q u)
        (keeps_p2step h (hmem u (List.mem_cons_self u rest)) hs)
        (fun w hw => hmem w (List.mem_cons_of_mem u hw))
  refine hfold (availableUsers p.1 sid) p hK ?_
  intro u hu
  have hv : u ∈ (p.1.sat sid).visible_users := (List.mem_filter.mp hu).1
  rw [hK.svis sid] at hv
  exact hvk sid u hv

theorem keeps_p1satfold {g2 : GState Pos}
    (hvk : ∀ s u, u ∈ (g2.sat s).visible_users → u ∈ g2.userKeys) :
    ∀ (sids : List Nat) (q : GState Pos × Sol), Keeps g2 q.1 →
      (∀ s ∈ sids, s ∈ g2.satKeys) →
      Keeps g2 ((sids.foldl (p1sat intf) q)).1 := by
  intro sids
  induction sids with
  | nil => exact fun q h _ => h
  | cons s rest ih =>
    intro q h hmem
    rw [List.foldl_cons]
    exact ih (p1sat intf q s)
      (keeps_p1sat h (hmem s (List.mem_cons_self s rest)) hvk)
      (fun w hw => hmem w (List.mem_cons_of_mem s hw))

theorem keeps_p2satfold {g2 : GState Pos}
    (hvk : ∀ s u, u ∈ (g2.sat s).visible_users → u ∈ g2.userKeys) :
    ∀ (sids : List Nat) (q : GState Pos × Sol), Keeps g2 q.1 →
      (∀ s ∈ sids, s ∈ g2.satKeys) →
      Keeps g2 ((sids.foldl (p2sat intf) q)).1 := by
  intro sids
  induction sids with
  | nil => exact fun q h _ => h
  | cons s rest ih =>
    intro q h hmem
    rw [List.foldl_cons]
    exact ih (p2sat intf q s)
      (keeps_p2sat h (hmem s (List.mem_cons_self s rest)) hvk)
      (fun w hw => hmem w (List.mem_cons_of_mem s hw))

theorem pass2Full_keeps [Inhabited Pos] (users sats : List (Nat × Pos)) :
    Keeps (initState vis users sats) (pass2Full vis intf users sats).1 := by
  obtain ⟨hI0, hasg⟩ := (initState_inv users sats :
    Inv vis intf (initState vis users sats) ∧
    ∀ u, ((initState vis users sats).sat u).assignments = [])
  have hvk := hI0.vkeys
  have hK1 : Keeps (initState vis users sats) (pass1Full vis intf users sats).1 := by
    unfold pass1Full
    exact keeps_p1satfold hvk (initState vis users sats).satKeys
      (initState vis users sats, []) (keeps_refl hasg) (fun s hs => hs)
  unfold pass2Full
  exact keeps_p2satfold hvk (pass1Full vis intf users sats).1.satKeys
    (pass1Full vis intf users sats) hK1 (fun s hs => hK1.sk ▸ hs)

end KeepLemmas

/-! ## The registration loops on a polluted registry -/

section InitCongr

variable {Pos : Type} {vis : Pos → Pos → Bool} {intf : Pos → Pos → Pos → Bool}

theorem initUsers_cons (pr : Nat × Pos) (rest : List (Nat × Pos)) (g : GState Pos) :
    initUsers (pr :: rest) g =
      initUsers rest
        { g with userKeys := insertKey g.userKeys pr.1
                 user := Function.update g.user pr.1
                   { vector := pr.2, assigned := false, color := none } } := rfl

theorem initSats_cons (pr : Nat × Pos) (rest : List (Nat × Pos)) (g : GState Pos) :
    initSats vis (pr :: rest) g =
      initSats vis rest
        { g with satKeys := insertKey g.satKeys pr.1
                 sat := Function.update g.sat pr.1
                   { vector := pr.2
                     assignments := []
                     visible_users :=
                       g.userKeys.filter (fun uid => vis pr.2 (g.user uid).vector) } } := rfl

theorem insertKey_mem_of {ks : List Nat} {k : Nat} (h : k ∈ ks) (k2 : Nat) :
    k ∈ insertKey ks k2 := by
  unfold insertKey
  by_cases hm : k2 ∈ ks
  · rw [if_pos hm]
    exact h
  · rw [if_neg hm]
    exact List.mem_append_left _ h

theorem insertKey_self (ks : List Nat) (k : Nat) : k ∈ insertKey ks k := by
  unfold insertKey
  by_cases hm : k ∈ ks
  · rw [if_pos hm]
    exact hm
  · rw [if_neg hm]
    exact List.mem_append_right _ (List.mem_singleton.mpr rfl)

theorem insertKey_sub {ks : List Nat} {k k2 : Nat} (h : k ∈ insertKey ks k2) :
    k ∈ ks ∨ k = k2 := by
  unfold insertKey at h
  by_cases hm : k2 ∈ ks
  · rw [if_pos hm] at h
    exact Or.inl h
  · rw [if_neg hm] at h
    rcases List.mem_append.mp h with h2 | h2
    · exact Or.inl h2
    · exact Or.inr (List.mem_singleton.mp h2)

theorem initUsers_keys_mem (users : List (Nat × Pos)) :
    ∀ (g : GState Pos) (k : Nat), k ∈ g.userKeys → k ∈ (initUsers users g).userKeys := by
  induction users with
  | nil => exact fun g k h => h
  | cons pr rest ih =>
    intro g k h
    rw [initUsers_cons]
    exact ih _ k (insertKey_mem_of h pr.1)

theorem initUsers_keys_self (users : List (Nat × Pos)) :
    ∀ (g : GState Pos), ∀ p ∈ users, p.1 ∈ (initUsers users g).userKeys := by
  induction users with
  | nil =>
    intro g p hp
    exact absurd hp (List.not_mem_nil p)
  | cons pr rest ih =>
    intro g p hp
    rw [initUsers_cons]
    rcases List.mem_cons.mp hp with h | h
    · rw [h]
      exact initUsers_keys_mem rest _ pr.1 (insertKey_self g.userKeys pr.1)
    · exact ih _ p h

theorem initUsers_keys_id (users : List (Nat × Pos)) :
    ∀ (g : GState Pos), (∀ p ∈ users, p.1 ∈ g.userKeys) →
      (initUsers users g).userKeys = g.userKeys := by
  induction users with
  | nil => exact fun g _ => rfl
  | cons pr rest ih =>
    intro g h
    have h1 : insertKey g.userKeys pr.1 = g.userKeys := by
      unfold insertKey
      rw [if_pos (h pr (List.mem_cons_self pr rest))]
    rw [initUsers_cons]
    rw [ih _ (by
      intro p hp
      show p.1 ∈ insertKey g.userKeys pr.1
      rw [h1]
      exact h p (List.mem_cons_of_mem pr hp))]
    exact h1

theorem initUsers_keys_sub (users : List (Nat × Pos)) :
    ∀ (g : GState Pos) (k : Nat), k ∈ (initUsers users g).userKeys →
      k ∈ g.userKeys ∨ k ∈ users.map Prod.fst := by
  induction users with
  | nil => exact fun g k h => Or.inl h
  | cons pr rest ih =>
    intro g k h
    rw [initUsers_cons] at h
    rw [List.map_cons]
    rcases ih _ k h with h2 | h2
    · rcases insertKey_sub h2 with h3 | h3
      · exact Or.inl h3
      · exact Or.inr (by rw [h3]; exact List.mem_cons_self _ _)
    · exact Or.inr (List.mem_cons_of_mem _ h2)

theorem initUsers_user_off (users : List (Nat × Pos)) :
    ∀ (g : GState Pos) (u : Nat), u ∉ users.map Prod.fst →
      (initUsers users g).user u = g.user u := by
  induction users with
  | nil => exact fun g u _ => rfl
  | cons pr rest ih =>
    intro g u h
    rw [List.map_cons] at h
    have hne : u ≠ pr.1 := fun he => h (by rw [he]; exact List.mem_cons_self _ _)
    rw [initUsers_cons]
    rw [ih _ u (fun hm => h (List.mem_cons_of_mem _ hm))]
    exact Function.update_noteq hne _ g.user

theorem initUsers_user_congr (users : List (Nat × Pos)) :
    ∀ (g g2 : GState Pos),
      (∀ u, u ∉ users.map Prod.fst → g.user u = g2.user u) →
      ∀ u, (initUsers users g).user u = (initUsers users g2).user u := by
  induction users with
  | nil =>
    intro g g2 h u
    exact h u (List.not_mem_nil u)
  | cons pr rest ih =>
    intro g g2 h u
    rw [initUsers_cons, initUsers_cons]
    refine ih _ _ ?_ u
    intro w hw
    show Function.update g.user pr.1
        { vector := pr.2, assigned := false, color := none } w =
      Function.update g2.user pr.1
        { vector := pr.2, assigned := false, color := none } w
    by_cases hwp : w = pr.1
    · rw [hwp, Function.update_same, Function.update_same]
    · rw [Function.update_noteq hwp, Function.update_noteq hwp]
      refine h w ?_
      rw [List.map_cons]
      intro hm
      rcases List.mem_cons.mp hm with h2 | h2
      · exact hwp h2
      · exact hw h2

theorem initSats_keys_mem (sats : List (Nat × Pos)) :
    ∀ (g : GState Pos) (k : Nat), k ∈ g.satKeys →
      k ∈ (initSats vis sats g).satKeys := by
  induction sats with
  | nil => exact fun g k h => h
  | cons pr rest ih =>
    intro g k h
    rw [initSats_cons]
    exact ih _ k (insertKey_mem_of h pr.1)

theorem initSats_keys_self (sats : List (Nat × Pos)) :
    ∀ (g : GState Pos), ∀ p ∈ sats, p.1 ∈ (initSats vis sats g).satKeys := by
  induction sats with
  | nil =>
    intro g p hp
    exact absurd hp (List.not_mem_nil p)
  | cons pr rest ih =>
    intro g p hp
    rw [initSats_cons]
    rcases List.mem_cons.mp hp with h | h
    · rw [h]
      exact initSats_keys_mem rest _ pr.1 (insertKey_self g.satKeys pr.1)
    · exact ih _ p h

theorem initSats_keys_id (sats : List (Nat × Pos)) :
    ∀ (g : GState Pos), (∀ p ∈ sats, p.1 ∈ g.satKeys) →
      (initSats vis sats g).satKeys = g.satKeys := by
  induction sats with
  | nil => exact fun g _ => rfl
  | cons pr rest ih =>
    intro g h
    have h1 : insertKey g.satKeys pr.1 = g.satKeys := by
      unfold insertKey
      rw [if_pos (h pr (List.mem_cons_self pr rest))]
    rw [initSats_cons]
    rw [ih _ (by
      intro p hp
      show p.1 ∈ insertKey g.satKeys pr.1
      rw [h1]
      exact h p (List.mem_cons_of_mem pr hp))]
    exact h1

theorem initSats_keys_sub (sats : List (Nat × Pos)) :
    ∀ (g : GState Pos) (k : Nat), k ∈ (initSats vis sats g).satKeys →
      k ∈ g.satKeys ∨ k ∈ sats.map Prod.fst := by
  induction sats with
  | nil => exact fun g k h => Or.inl h
  | cons pr rest ih =>
    intro g k h
    rw [initSats_cons] at h
    rw [List.map_cons]
    rcases ih _ k h with h2 | h2
    · rcases insertKey_sub h2 with h3 | h3
      · exact Or.inl h3
      · exact Or.inr (by rw [h3]; exact List.mem_cons_self _ _)
    · exact Or.inr (List.mem_cons_of_mem _ h2)

theorem initSats_sat_off (sats : List (Nat × Pos)) :
    ∀ (g : GState Pos) (s : Nat), s ∉ sats.map Prod.fst →
      (initSats vis sats g).sat s = g.sat s := by
  induction sats with
  | nil => exact fun g s _ => rfl
  | cons pr rest ih =>
    intro g s h
    rw [List.map_cons] at h
    have hne : s ≠ pr.1 := fun he => h (by rw [he]; exact List.mem_cons_self _ _)
    rw [initSats_cons]
    rw [ih _ s (fun hm => h (List.mem_cons_of_mem _ hm))]
    exact Function.update_noteq hne _ g.sat

theorem initSats_sat_congr (sats : List (Nat × Pos)) :
    ∀ (g g2 : GState Pos),
      g.userKeys = g2.userKeys → g.user = g2.user →
      (∀ s, s ∉ sats.map Prod.fst → g.sat s = g2.sat s) →
      ∀ s, (initSats vis sats g).sat s = (initSats vis sats g2).sat s := by
  induction sats with
  | nil =>
    intro g g2 _ _ h s
    exact h s (List.not_mem_nil s)
  | cons pr rest ih =>
    intro g g2 huk hu h s
    rw [initSats_cons, initSats_cons]
    refine ih _ _ ?_ ?_ ?_ s
    · exact huk
    · exact hu
    intro w hw
    show Function.update g.sat pr.1
        { vector := pr.2
          assignments := []
          visible_users :=
            g.userKeys.filter (fun uid => vis pr.2 (g.user uid).vector) } w =
      Function.update g2.sat pr.1
        { vector := pr.2
          assignments := []
          visible_users :=
            g2.userKeys.filter (fun uid => vis pr.2 (g2.user uid).vector) } w
    by_cases hwp : w = pr.1
    · rw [hwp, Function.update_same, Function.update_same, huk, hu]
    · rw [Function.update_noteq hwp, Function.update_noteq hwp]
      refine h w ?_
      rw [List.map_cons]
      intro hm
      rcases List.mem_cons.mp hm with h2 | h2
      · exact hwp h2
      · exact hw h2

end InitCongr

/-! ## Re-running solve on the polluted registries -/

section RerunLemmas

variable {Pos : Type} {vis : Pos → Pos → Bool} {intf : Pos → Pos → Pos → Bool}

theorem gstate_ext {g g2 : GState Pos} (h1 : g.userKeys = g2.userKeys)
    (h2 : g.user = g2.user) (h3 : g.satKeys = g2.satKeys)
    (h4 : g.sat = g2.sat) : g = g2 := by
  cases g
  cases g2
  simp only [GState.mk.injEq]
  exact ⟨h1, h2, h3, h4⟩

theorem rerun_init_eq [Inhabited Pos] (users sats : List (Nat × Pos)) :
    initSats vis sats (initUsers users (pass2Full vis intf users sats).1) =
      initState vis users sats := by
  set g2 := initState vis users sats with hg2def
  set gf := (pass2Full vis intf users sats).1 with hgfdef
  have hKf : Keeps g2 gf := pass2Full_keeps users sats
  set g1 := initUsers users (emptyG Pos) with hg1def
  have hg2u : g2.userKeys = g1.userKeys :=
    ((initSats_user sats g1).2 :
      (initSats vis sats g1).userKeys = g1.userKeys)
  have hg2usr : g2.user = g1.user :=
    ((initSats_user sats g1).1 : (initSats vis sats g1).user = g1.user)
  have hukeys : ∀ p ∈ users, p.1 ∈ gf.userKeys := by
    intro p hp
    rw [hKf.uk, hg2u]
    exact initUsers_keys_self users (emptyG Pos) p hp
  have hA1 : (initUsers users gf).userKeys = g2.userKeys := by
    rw [initUsers_keys_id users gf hukeys, hKf.uk]
  have hA2 : ∀ u, (initUsers users gf).user u = g1.user u := by
    have hbase : ∀ w, w ∉ users.map Prod.fst → gf.user w = (emptyG Pos).user w := by
      intro w hw
      have hwK : w ∉ g2.userKeys := by
        rw [hg2u]
        intro hmem
        rcases initUsers_keys_sub users (emptyG Pos) w hmem with h | h
        · exact absurd h (List.not_mem_nil w)
        · exact hw h
      rw [hKf.uoff w hwK, hg2usr]
      exact initUsers_user_off users (emptyG Pos) w hw
    intro u
    rw [initUsers_user_congr users gf (emptyG Pos) hbase u]
  have hA3 : (initUsers users gf).satKeys = gf.satKeys := (initUsers_sat users gf).2
  have hA4 : (initUsers users gf).sat = gf.sat := (initUsers_sat users gf).1
  have hskeys : ∀ p ∈ sats, p.1 ∈ (initUsers users gf).satKeys := by
    intro p hp
    rw [hA3, hKf.sk]
    exact (initSats_keys_self sats g1 p hp :
      p.1 ∈ (initSats vis sats g1).satKeys)
  have hB1 : (initSats vis sats (initUsers users gf)).userKeys = g2.userKeys := by
    rw [(initSats_user sats (initUsers users gf)).2, hA1]
  have hB2 : (initSats vis sats (initUsers users gf)).user = g2.user := by
    rw [(initSats_user sats (initUsers users gf)).1, hg2usr]
    funext u
    exact hA2 u
  have hB3 : (initSats vis sats (initUsers users gf)).satKeys = g2.satKeys := by
    rw [initSats_keys_id sats (initUsers users gf) hskeys, hA3, hKf.sk]
  have hB4 : (initSats vis sats (initUsers users gf)).sat = g2.sat := by
    have hsatbase : ∀ w, w ∉ sats.map Prod.fst →
        (initUsers users gf).sat w = g1.sat w := by
      intro w hw
      have hwSK : w ∉ g2.satKeys := by
        intro hmem
        rcases (initSats_keys_sub sats g1 w
            (hmem : w ∈ (initSats vis sats g1).satKeys)) with h | h
        · rw [(initUsers_sat users (emptyG Pos)).2] at h
          exact absurd h (List.not_mem_nil w)
        · exact hw h
      rw [hA4, hKf.soff w hwSK]
      exact (initSats_sat_off sats g1 w hw :
        (initSats vis sats g1).sat w = g1.sat w)
    have huk1 : (initUsers users gf).userKeys = g1.userKeys := by
      rw [hA1, hg2u]
    have hu1 : (initUsers users gf).user = g1.user := funext hA2
    funext w
    rw [initSats_sat_congr sats (initUsers users gf) g1 huk1 hu1 hsatbase w]
    exact rfl
  exact gstate_ext hB1 hB2 hB3 hB4

theorem solveG_congr {users sats : List (Nat × Pos)} {g g2 : GState Pos}
    (h : initSats vis sats (initUsers users g) =
      initSats vis sats (initUsers users g2)) :
    solveG vis intf users sats g = solveG vis intf users sats g2 := by
  unfold solveG
  rw [h]

end RerunLemmas

/-- C9: `solve` is deterministic on a re-run: calling `solve` again with
the same input mappings (same keys in the same order, same positions), on
the interpreter state left behind by a first fresh call, returns exactly
the same user-to-(satellite, channel) mapping.  Re-registration overwrites
every stale registry entry because the key sets coincide, so the polluted
registries collapse back to the fresh post-registration state. -/
theorem C9_rerun_deterministic :
    ∀ (Pos : Type) [Inhabited Pos] (vis : Pos → Pos → Bool)
      (intf : Pos → Pos → Pos → Bool) (users sats : List (Nat × Pos)),
      (solveG vis intf users sats (solveFresh vis intf users sats).2).1 =
        (solveFresh vis intf users sats).1 := by
  intro Pos _ vis intf users sats
  have hfst : (solveFresh vis intf users sats).2 = (pass2Full vis intf users sats).1 := by
    rw [solveFresh_eq_pass2Full]
  have h2 : initSats vis sats (initUsers users (solveFresh vis intf users sats).2) =
      initSats vis sats (initUsers users (emptyG Pos)) := by
    rw [hfst]
    have h : initSats vis sats (initUsers users (pass2Full vis intf users sats).1) =
        initState vis users sats := rerun_init_eq users sats
    unfold initState at h
    exact h
  have hres : (solveFresh vis intf users sats).1 =
      (solveG vis intf users sats (emptyG Pos)).1 := rfl
  rw [hres]
  exact congrArg Prod.fst (solveG_congr h2)
